import Mathlib

/-!
# Kyverno: admission-time mutation pipeline and background-controller bootstrap

A shallow embedding of

* `pkg/webhooks/resource/mutation/mutation.go`
  (`HandleMutation`, `applyMutations`, `applyMutation`), and
* `cmd/background-controller/main.go`
  (`createrLeaderControllers`, `main` and its leader-election callback).

Calls to collaborators that live outside these two files (the engine, the
schema validator, the namespace lister, the event generator, the informer
factories, the leader-election primitive) are recorded in an explicit log, so
that statements about which calls happen, in which order and with which
arguments become statements about lists.
-/

namespace Kyverno

/-! ## Data model of the mutation pipeline -/

/-- A non-nil `[]byte`: one patch fragment, or the joined patch. -/
abbrev Bytes := String

/-- An event as built by `webhookutils.GenerateEvents`. -/
abbrev Event := String

/-- Namespace labels, a `map[string]string`. -/
abbrev Labels := List (String × String)

/-- The part of `unstructured.Unstructured` the pipeline reads: `GetAPIVersion`,
`GetKind`, and the remaining content. -/
structure Resource where
  apiVersion : String
  kind : String
  body : String
  deriving DecidableEq, Repr

/-- The part of `kyvernov1.PolicyInterface` the pipeline reads: `GetNamespace`,
`GetName`, `GetSpec().HasMutate()` and `ValidateSchema()`. Policy values are
taken non-nil. -/
structure Policy where
  ns : String
  name : String
  hasMutate : Bool
  validateSchema : Bool
  deriving DecidableEq, Repr

/-- The part of `admissionv1.AdmissionRequest` the pipeline reads:
`request.Kind.Kind` and `request.Namespace`. -/
structure AdmissionRequest where
  Kind : String
  Namespace : String
  deriving DecidableEq, Repr

/-- The type `engine.PolicyContext`: the object under evaluation, the active
policy and the namespace labels. -/
structure PolicyContext where
  newResource : Resource
  policy : Policy
  namespaceLabels : Labels
  deriving DecidableEq, Repr

/-- The method `PolicyContext.WithPolicy`: a copy with the active policy replaced. -/
def PolicyContext.WithPolicy (c : PolicyContext) (p : Policy) : PolicyContext :=
  { c with policy := p }

/-- The method `PolicyContext.WithNewResource`: a copy with the object replaced. -/
def PolicyContext.WithNewResource (c : PolicyContext) (r : Resource) : PolicyContext :=
  { c with newResource := r }

/-- The method `PolicyContext.WithNamespaceLabels`: a copy with the labels replaced. -/
def PolicyContext.WithNamespaceLabels (c : PolicyContext) (l : Labels) : PolicyContext :=
  { c with namespaceLabels := l }

/-- The type `engineapi.EngineResponse`, with the results of its methods
`GetPatches`, `IsSuccessful`, `GetFailedRulesWithErrors` and `GetSuccessRules`
read as fields. -/
structure EngineResponse where
  PatchedResource : Resource
  GetPatches : List Bytes
  IsSuccessful : Bool
  GetFailedRulesWithErrors : List String
  GetSuccessRules : List String
  deriving DecidableEq, Repr

/-- The collaborators of `mutationHandler` and the helper functions of other
packages that `mutation.go` calls; every one is a parameter of the model, a
function of the arguments it is called with. Errors are represented by their
message, `none` being the nil error; a nil slice of byte slices is `none`
where the code tests for nil. -/
structure mutationHandler where
  /-- The call `h.engine.Mutate(ctx, policyContext)`. -/
  engineMutate : PolicyContext → EngineResponse
  /-- The call `h.openApiManager.ValidateResource(resource, apiVersion, kind)`. -/
  ValidateResource : Resource → String → String → Option String
  /-- The call `engineutils.GetNamespaceSelectorsFromNamespaceLister(kind, namespace, h.nsLister, h.log)`. -/
  GetNamespaceSelectorsFromNamespaceLister : String → String → Labels
  /-- The call `utils.GenerateAnnotationPatches(engineResponses, v.log)`. -/
  GenerateAnnotationPatches : List EngineResponse → Option (List Bytes)
  /-- The call `webhookutils.GenerateEvents(engineResponses, blocked)`. -/
  GenerateEvents : List EngineResponse → Bool → List Event
  /-- The call `jsonutils.JoinPatches(patches...)`; `none` is a nil result. -/
  JoinPatches : List Bytes → Option Bytes
  /-- The call `webhookutils.GetWarningMessages(engineResponses)`. -/
  GetWarningMessages : List EngineResponse → List String

/-- One call from the pipeline to a stateful collaborator. -/
inductive Effect where
  /-- A namespace-label lookup through the namespace lister. -/
  | nsLookup (kind ns : String)
  /-- A call of `engine.Mutate` with the given context. -/
  | mutate (ctx : PolicyContext)
  /-- A call of `openApiManager.ValidateResource`. -/
  | validate (resource : Resource) (apiVersion kind : String)
  /-- A call of `eventGen.Add(events...)`. -/
  | eventAdd (events : List Event)
  deriving DecidableEq, Repr

/-- Contexts of the `engine.Mutate` calls of a log, in order. -/
def mutateCalls (log : List Effect) : List PolicyContext :=
  log.filterMap fun e => match e with
    | .mutate c => some c
    | _ => none

/-- Keys of the namespace-label lookups of a log, in order. -/
def nsLookups (log : List Effect) : List (String × String) :=
  log.filterMap fun e => match e with
    | .nsLookup k n => some (k, n)
    | _ => none

/-- Arguments of the `ValidateResource` calls of a log, in order. -/
def validateCalls (log : List Effect) : List (Resource × String × String) :=
  log.filterMap fun e => match e with
    | .validate r a k => some (r, a, k)
    | _ => none

/-- Arguments of the `eventGen.Add` calls of a log, in order. -/
def eventAdds (log : List Effect) : List (List Event) :=
  log.filterMap fun e => match e with
    | .eventAdd ev => some ev
    | _ => none

/-- The Go rendering `%v` of a `[]string`: the elements separated by one
space, in square brackets. -/
def fmtV (l : List String) : String :=
  "[" ++ " ".intercalate l ++ "]"

/-! ## `applyMutation` -/

/-- The return triple `(*EngineResponse, [][]byte, error)` of `applyMutation`. -/
structure MutationOutcome where
  response : Option EngineResponse
  patches : List Bytes
  err : Option String
  deriving DecidableEq, Repr

/-- The method `mutationHandler.applyMutation` (mutation.go, lines 142-162),
with the log of the collaborator calls it makes. -/
def applyMutation (h : mutationHandler) (request : AdmissionRequest)
    (policyContext : PolicyContext) : MutationOutcome × List Effect :=
  let injected : PolicyContext × List Effect :=
    if request.Kind ≠ "Namespace" ∧ request.Namespace ≠ "" then
      (policyContext.WithNamespaceLabels
          (h.GetNamespaceSelectorsFromNamespaceLister request.Kind request.Namespace),
        [Effect.nsLookup request.Kind request.Namespace])
    else (policyContext, [])
  let policyContext := injected.1
  let engineResponse := h.engineMutate policyContext
  let log := injected.2 ++ [Effect.mutate policyContext]
  let policyPatches := engineResponse.GetPatches
  if engineResponse.IsSuccessful = false then
    (⟨none, [], some ("failed to apply policy " ++ policyContext.policy.name ++ " rules "
        ++ fmtV engineResponse.GetFailedRulesWithErrors)⟩, log)
  else if policyContext.policy.validateSchema = true ∧ engineResponse.PatchedResource.kind ≠ "*" then
    let log := log ++ [Effect.validate engineResponse.PatchedResource
      engineResponse.PatchedResource.apiVersion engineResponse.PatchedResource.kind]
    match h.ValidateResource engineResponse.PatchedResource
        engineResponse.PatchedResource.apiVersion engineResponse.PatchedResource.kind with
    | some err =>
      (⟨none, [], some ("failed to validate resource mutated by policy "
          ++ policyContext.policy.name ++ ": " ++ err)⟩, log)
    | none => (⟨some engineResponse, policyPatches, none⟩, log)
  else (⟨some engineResponse, policyPatches, none⟩, log)

/-! ## `applyMutations` -/

/-- The variables the loop of `applyMutations` updates: `patches`,
`engineResponses`, the running `policyContext`, and the log so far. -/
structure LoopState where
  patches : List Bytes
  engineResponses : List EngineResponse
  policyContext : PolicyContext
  log : List Effect

/-- The closure handed to `tracing.ChildSpan1` for one policy (mutation.go,
lines 99-121): its returned error and the updated variables. -/
def policyStep (h : mutationHandler) (request : AdmissionRequest) (policy : Policy)
    (s : LoopState) : Option String × LoopState :=
  let currentContext := s.policyContext.WithPolicy policy
  let applied := applyMutation h request currentContext
  match applied.1.err with
  | some err =>
    (some ("mutation policy " ++ policy.name ++ " error: " ++ err),
      { s with log := s.log ++ applied.2 })
  | none =>
    let patches :=
      if applied.1.patches.length > 0 then s.patches ++ applied.1.patches else s.patches
    match applied.1.response with
    | some engineResponse =>
      (none, ⟨patches, s.engineResponses ++ [engineResponse],
        currentContext.WithNewResource engineResponse.PatchedResource, s.log ++ applied.2⟩)
    | none => (none, ⟨patches, s.engineResponses, s.policyContext, s.log ++ applied.2⟩)

/-- The `for _, policy := range policies` loop of `applyMutations` (lines
89-126): the error on which it returned early, if any, and the variables.
The wrapper `tracing.ChildSpan1` runs the closure once and returns its error. -/
def applyLoop (h : mutationHandler) (request : AdmissionRequest) :
    List Policy → LoopState → Option String × LoopState
  | [], s => (none, s)
  | policy :: rest, s =>
    if policy.hasMutate = false then applyLoop h request rest s
    else
      match policyStep h request policy s with
      | (some err, s') => (some err, s')
      | (none, s') => applyLoop h request rest s'

/-- The return triple `([]byte, []engineapi.EngineResponse, error)` of
`applyMutations`; the response slice is only ever nil or non-empty, nil
being `[]`. -/
structure MutationResult where
  patch : Option Bytes
  responses : List EngineResponse
  err : Option String
  deriving DecidableEq, Repr

/-- The value of the local `patches` when the return statement on line 139 is
reached: the fragments accumulated by the loop, then the annotation fragments
unless `GenerateAnnotationPatches` returned nil (lines 129-131). -/
def withAnnotations (h : mutationHandler) (s : LoopState) : List Bytes :=
  match h.GenerateAnnotationPatches s.engineResponses with
  | some annPatches => s.patches ++ annPatches
  | none => s.patches

/-- The method `mutationHandler.applyMutations` (mutation.go, lines 76-140),
with the log of the collaborator calls it makes. -/
def applyMutations (h : mutationHandler) (request : AdmissionRequest)
    (policies : List Policy) (policyContext : PolicyContext) : MutationResult × List Effect :=
  if policies.length = 0 then (⟨none, [], none⟩, [])
  else
    match applyLoop h request policies ⟨[], [], policyContext, []⟩ with
    | (some err, s) => (⟨none, [], some err⟩, s.log)
    | (none, s) =>
      let patches := withAnnotations h s
      let events := h.GenerateEvents s.engineResponses false
      (⟨h.JoinPatches patches, s.engineResponses, none⟩, s.log ++ [Effect.eventAdd events])

/-- The return triple `([]byte, []string, error)` of `HandleMutation`. -/
structure HandleResult where
  patch : Option Bytes
  warnings : List String
  err : Option String
  deriving DecidableEq, Repr

/-- The method `mutationHandler.HandleMutation` (mutation.go, lines 59-72). -/
def HandleMutation (h : mutationHandler) (request : AdmissionRequest)
    (policies : List Policy) (policyContext : PolicyContext) : HandleResult × List Effect :=
  let applied := applyMutations h request policies policyContext
  match applied.1.err with
  | some err => (⟨none, [], some err⟩, applied.2)
  | none => (⟨applied.1.patch, h.GetWarningMessages applied.1.responses, none⟩, applied.2)

/-! ## Auxiliary notions for the statements -/

/-- The context `applyMutation` hands to the engine: the given one, with the
namespace labels injected when the request is namespaced and not a Namespace. -/
def engineContext (h : mutationHandler) (request : AdmissionRequest)
    (policyContext : PolicyContext) : PolicyContext :=
  if request.Kind ≠ "Namespace" ∧ request.Namespace ≠ "" then
    policyContext.WithNamespaceLabels
      (h.GetNamespaceSelectorsFromNamespaceLister request.Kind request.Namespace)
  else policyContext

/-- The schema gate of `applyMutation` for the engine response `r` of policy `p`. -/
def schemaGate (p : Policy) (r : EngineResponse) : Prop :=
  p.validateSchema = true ∧ r.PatchedResource.kind ≠ "*"

instance (p : Policy) (r : EngineResponse) : Decidable (schemaGate p r) := by
  unfold schemaGate; infer_instance

/-- The engine response to context `c` is successful and, where the schema
gate is open, its mutated object passes schema validation. -/
def accepted (h : mutationHandler) (c : PolicyContext) : Prop :=
  (h.engineMutate c).IsSuccessful = true ∧
    (schemaGate c.policy (h.engineMutate c) →
      h.ValidateResource (h.engineMutate c).PatchedResource
        (h.engineMutate c).PatchedResource.apiVersion
        (h.engineMutate c).PatchedResource.kind = none)

instance (h : mutationHandler) (c : PolicyContext) : Decidable (accepted h c) := by
  unfold accepted; infer_instance

/-- The error `applyMutation` returns when the engine response to context `c`
is not accepted (lines 151 and 157). -/
def mutationError (h : mutationHandler) (c : PolicyContext) : String :=
  if (h.engineMutate c).IsSuccessful = false then
    "failed to apply policy " ++ c.policy.name ++ " rules "
      ++ fmtV (h.engineMutate c).GetFailedRulesWithErrors
  else
    "failed to validate resource mutated by policy " ++ c.policy.name ++ ": "
      ++ (h.ValidateResource (h.engineMutate c).PatchedResource
            (h.engineMutate c).PatchedResource.apiVersion
            (h.engineMutate c).PatchedResource.kind).getD ""

/-- The contexts handed to the engine by the loop of `applyMutations` started
with running context `ctx`: one per mutate-capable policy, in list order, up
to and including the first whose response is not accepted. -/
def engineCalls (h : mutationHandler) (request : AdmissionRequest) :
    PolicyContext → List Policy → List PolicyContext
  | _, [] => []
  | ctx, p :: ps =>
    if p.hasMutate = false then engineCalls h request ctx ps
    else if accepted h (engineContext h request (ctx.WithPolicy p)) then
      engineContext h request (ctx.WithPolicy p) ::
        engineCalls h request
          ((ctx.WithPolicy p).WithNewResource
            (h.engineMutate (engineContext h request (ctx.WithPolicy p))).PatchedResource) ps
    else [engineContext h request (ctx.WithPolicy p)]

/-- The loop variables after a policy whose response was accepted. -/
def nextState (h : mutationHandler) (request : AdmissionRequest) (p : Policy)
    (s : LoopState) : LoopState :=
  ⟨s.patches ++ (h.engineMutate (engineContext h request (s.policyContext.WithPolicy p))).GetPatches,
    s.engineResponses ++ [h.engineMutate (engineContext h request (s.policyContext.WithPolicy p))],
    (s.policyContext.WithPolicy p).WithNewResource
      (h.engineMutate (engineContext h request (s.policyContext.WithPolicy p))).PatchedResource,
    s.log ++ (applyMutation h request (s.policyContext.WithPolicy p)).2⟩

/-- The namespace-label lookups and engine calls of a log, in order. -/
def lookupsAndCalls (log : List Effect) : List Effect :=
  log.filter fun e => match e with
    | .nsLookup _ _ => true
    | .mutate _ => true
    | _ => false

/-- The message `msg` contains `part` as a contiguous substring. -/
def contains (msg part : String) : Prop :=
  part.data <:+: msg.data

/-! ## Concrete collaborators used for the witnesses -/

/-- A handler whose engine appends the policy name to the object, emits one
fragment per policy unless the object is a ConfigMap (which no rule patches),
and fails for policy `forbid-privileged`; whose annotation generator returns
nil when no response carries a fragment; and whose join returns nil on no
fragments. -/
def demoHandler : mutationHandler where
  engineMutate := fun c =>
    { PatchedResource := { c.newResource with body := c.newResource.body ++ "+" ++ c.policy.name }
      GetPatches := if c.newResource.kind = "ConfigMap" then [] else ["patch-" ++ c.policy.name]
      IsSuccessful := c.policy.name != "forbid-privileged"
      GetFailedRulesWithErrors :=
        if c.policy.name = "forbid-privileged" then ["check-privileged: denied"] else []
      GetSuccessRules := [] }
  ValidateResource := fun r _ _ => if r.kind = "Broken" then some "unknown kind" else none
  GetNamespaceSelectorsFromNamespaceLister := fun _ n => [("name", n)]
  GenerateAnnotationPatches := fun rs =>
    if rs.all (fun r => r.GetPatches.isEmpty) then none else some ["annotation"]
  GenerateEvents := fun rs _ => rs.map fun r => "event:" ++ r.PatchedResource.body
  JoinPatches := fun ps => if ps.isEmpty then none else some ("[" ++ ", ".intercalate ps ++ "]")
  GetWarningMessages := fun _ => []

def demoRequest : AdmissionRequest := ⟨"Pod", "ns1"⟩

def demoBase : PolicyContext :=
  ⟨⟨"v1", "Pod", "pod1"⟩, ⟨"", "", false, false⟩, []⟩

def addLabel : Policy := ⟨"", "add-label", true, false⟩

def addOwner : Policy := ⟨"", "add-owner", true, true⟩

def forbidPrivileged : Policy := ⟨"", "forbid-privileged", true, false⟩

def configMapRequest : AdmissionRequest := ⟨"ConfigMap", "ns1"⟩

def configMapBase : PolicyContext :=
  ⟨⟨"v1", "ConfigMap", "cm1"⟩, ⟨"", "", false, false⟩, []⟩

def auditOnly : Policy := ⟨"", "audit-only", false, false⟩


/-! ## The bootstrap of the background controller (`main.go`) -/

/-- An execution context (`context.Context`): the process-wide one obtained
from `internal.Setup`, or one derived from a parent, which is cancelled when
the parent is or earlier. -/
inductive Context where
  | signal
  | derived (parent : Context) (id : Nat)
  deriving DecidableEq, Repr

/-- Whether `c` is `root` or was derived from it in any number of steps. -/
def Context.derivedFrom : Context → Context → Bool
  | .signal, root => root = .signal
  | .derived parent id, root =>
    decide (Context.derived parent id = root) || parent.derivedFrom root

/-- Where an informer factory was created: in `main`, or in the n-th
invocation of the leader-election callback. -/
inductive Scope where
  | process
  | leaderTerm (n : Nat)
  deriving DecidableEq, Repr

/-- An informer factory, named after the variable that holds it. -/
inductive Factory where
  | kyvernoInformer (scope : Scope)
  | kubeInformer (scope : Scope)
  deriving DecidableEq, Repr

/-- The result of `internal.NewController(name, controller, workers)`. -/
structure Controller where
  name : String
  workers : Int
  deriving DecidableEq, Repr

/-- One call made by `main` or by the leader-election callback. -/
inductive Action where
  /-- A call of `NewSharedInformerFactory`. -/
  | newInformerFactory (f : Factory)
  /-- A call of `internal.StartInformersAndWaitForCacheSync(ctx, logger, factories...)`. -/
  | startInformersAndWaitForCacheSync (ctx : Context) (factories : List Factory)
  /-- The statement `go eventGenerator.Run(ctx, workers, &wg)`. -/
  | eventGeneratorRun (ctx : Context) (workers : Int)
  /-- The call `leaderelection.New(...)`. -/
  | leaderElectionNew
  /-- The call `le.Run(ctx)`. -/
  | leaderElectionRun (ctx : Context)
  /-- A call `controller.Run(ctx, logger, &wg)` on a leader-only controller. -/
  | controllerRun (ctx : Context) (controller : Controller)
  /-- A call `wg.Wait()`. -/
  | wgWait
  /-- The call `os.Exit(code)`, after which the process makes no further call. -/
  | exit (code : Int)
  deriving DecidableEq, Repr

/-- The execution context an action was given, if it takes one. -/
def Action.context : Action → Option Context
  | .startInformersAndWaitForCacheSync ctx _ => some ctx
  | .eventGeneratorRun ctx _ => some ctx
  | .leaderElectionRun ctx => some ctx
  | .controllerRun ctx _ => some ctx
  | _ => none

/-- Whether the action is `Run` on a leader-only controller. -/
def Action.isControllerRun : Action → Bool
  | .controllerRun _ _ => true
  | _ => false

/-- Whether the action starts the event generator or the leader election. -/
def Action.isAlwaysOnStart : Action → Bool
  | .eventGeneratorRun _ _ => true
  | .leaderElectionNew => true
  | .leaderElectionRun _ => true
  | _ => false

/-- Outcomes of the external calls made during one leadership term: the error
of `policy.NewPolicyController` and the result of the cache-readiness wait. -/
structure TermOutcome where
  newPolicyControllerErr : Option String
  cacheSynced : Bool
  deriving DecidableEq, Repr

/-- The function `createrLeaderControllers` (main.go, lines 34-81), given the
error returned by `policy.NewPolicyController`. -/
def createrLeaderControllers (newPolicyControllerErr : Option String) (genWorkers : Int) :
    List Controller × Option String :=
  match newPolicyControllerErr with
  | some err => ([], some err)
  | none =>
    ([⟨"policy-controller", 2⟩, ⟨"background-controller", genWorkers⟩], none)

/-- The leader-election callback `func(ctx context.Context)` of `main`
(main.go, lines 157-192), as invoked for the `term`-th time with context
`ctx`; `signalCtx` and `genWorkers` are the variables of `main` it captures.
Returns the calls made and the exit status if it terminated the process. -/
def leaderCallback (signalCtx : Context) (genWorkers : Int) (term : Nat) (ctx : Context)
    (o : TermOutcome) : List Action × Option Int :=
  let _ := ctx
  let kubeInformer := Factory.kubeInformer (.leaderTerm term)
  let kyvernoInformer := Factory.kyvernoInformer (.leaderTerm term)
  let created := [Action.newInformerFactory kubeInformer, Action.newInformerFactory kyvernoInformer]
  match createrLeaderControllers o.newPolicyControllerErr genWorkers with
  | (_, some _) => (created ++ [Action.exit 1], some 1)
  | (leaderControllers, none) =>
    let wait := Action.startInformersAndWaitForCacheSync signalCtx [kyvernoInformer, kubeInformer]
    if o.cacheSynced = false then (created ++ [wait, Action.exit 1], some 1)
    else
      (created ++ [wait]
        ++ leaderControllers.map (fun controller => Action.controllerRun signalCtx controller)
        ++ [Action.wgWait], none)

/-- Modelled from the spec: the body of `le.Run` of package `leaderelection`,
which is not in the two files. "`Run(ctx, onAcquired func(ctx))`, where
`onAcquired` is invoked once per successful acquisition and expected to block
for the duration of the term": the callback is invoked for each acquisition in
turn, numbered from `n`, with the context of that term, until the list of
acquisitions is exhausted or the callback terminates the process. -/
def runElection (callback : Nat → Context → TermOutcome → List Action × Option Int) :
    Nat → List (Context × TermOutcome) → List Action × Option Int
  | _, [] => ([], none)
  | n, (ctx, o) :: rest =>
    match callback n ctx o with
    | (trace, some code) => (trace, some code)
    | (trace, none) =>
      ((trace ++ (runElection callback (n + 1) rest).1), (runElection callback (n + 1) rest).2)

/-- Outcomes of the external calls made during one run of the process. -/
structure ProcessOutcome where
  /-- The flag `genWorkers`. -/
  genWorkers : Int
  /-- The result of the cache-readiness wait of `main`. -/
  cacheSynced : Bool
  /-- The error of `leaderelection.New`. -/
  leaderElectionErr : Option String
  /-- The leadership terms acquired during `le.Run`: the context handed to the
  callback and the outcomes of the external calls of that term. -/
  terms : List (Context × TermOutcome)

/-- The function `main` (main.go, lines 83-202) from the creation of the
informer factory on: the calls made and the exit status if `os.Exit` was
called. -/
def main (w : ProcessOutcome) : List Action × Option Int :=
  let signalCtx := Context.signal
  let kyvernoInformer := Factory.kyvernoInformer .process
  let started := [Action.newInformerFactory kyvernoInformer,
    Action.startInformersAndWaitForCacheSync signalCtx [kyvernoInformer]]
  if w.cacheSynced = false then (started ++ [Action.exit 1], some 1)
  else
    let started := started ++ [Action.eventGeneratorRun signalCtx 3, Action.leaderElectionNew]
    match w.leaderElectionErr with
    | some _ => (started ++ [Action.exit 1], some 1)
    | none =>
      let elected := runElection (leaderCallback signalCtx w.genWorkers) 0 w.terms
      match elected.2 with
      | some code => (started ++ [Action.leaderElectionRun signalCtx] ++ elected.1, some code)
      | none =>
        (started ++ [Action.leaderElectionRun signalCtx] ++ elected.1 ++ [Action.wgWait], none)

/-- A term that ends on leadership loss: its context is derived from the
process-wide one. -/
def termContext (n : Nat) : Context := .derived .signal n

def healthyTerm : TermOutcome := ⟨none, true⟩

def unsyncedTerm : TermOutcome := ⟨none, false⟩

def brokenTerm : TermOutcome := ⟨some "failed to create policy controller", true⟩

/-! ## Lemmas on `applyMutation` -/

section Lemmas

variable (h : mutationHandler) (request : AdmissionRequest)

@[simp] theorem mutateCalls_append (a b : List Effect) :
    mutateCalls (a ++ b) = mutateCalls a ++ mutateCalls b := by
  simp [mutateCalls]

@[simp] theorem nsLookups_append (a b : List Effect) :
    nsLookups (a ++ b) = nsLookups a ++ nsLookups b := by
  simp [nsLookups]

@[simp] theorem validateCalls_append (a b : List Effect) :
    validateCalls (a ++ b) = validateCalls a ++ validateCalls b := by
  simp [validateCalls]

@[simp] theorem eventAdds_append (a b : List Effect) :
    eventAdds (a ++ b) = eventAdds a ++ eventAdds b := by
  simp [eventAdds]

theorem engineContext_policy (pc : PolicyContext) :
    (engineContext h request pc).policy = pc.policy := by
  unfold engineContext
  split <;> rfl

theorem engineContext_newResource (pc : PolicyContext) :
    (engineContext h request pc).newResource = pc.newResource := by
  unfold engineContext
  split <;> rfl

/-- The log of one `applyMutation` call. -/
theorem applyMutation_log (pc : PolicyContext) :
    (applyMutation h request pc).2 =
      (if request.Kind ≠ "Namespace" ∧ request.Namespace ≠ "" then
          [Effect.nsLookup request.Kind request.Namespace] else [])
      ++ [Effect.mutate (engineContext h request pc)]
      ++ (if (h.engineMutate (engineContext h request pc)).IsSuccessful = true ∧
            schemaGate pc.policy (h.engineMutate (engineContext h request pc)) then
          [Effect.validate (h.engineMutate (engineContext h request pc)).PatchedResource
            (h.engineMutate (engineContext h request pc)).PatchedResource.apiVersion
            (h.engineMutate (engineContext h request pc)).PatchedResource.kind]
          else []) := by
  simp only [applyMutation, engineContext, schemaGate]
  split_ifs <;> (try split) <;> simp_all [PolicyContext.WithNamespaceLabels]

/-- An accepted response is returned together with its fragments. -/
theorem applyMutation_accepted (pc : PolicyContext)
    (ha : accepted h (engineContext h request pc)) :
    (applyMutation h request pc).1 =
      ⟨some (h.engineMutate (engineContext h request pc)),
        (h.engineMutate (engineContext h request pc)).GetPatches, none⟩ := by
  have hp := engineContext_policy h request pc
  revert ha hp
  simp only [applyMutation, engineContext, accepted, schemaGate]
  split_ifs <;> (try split) <;> simp_all [PolicyContext.WithNamespaceLabels]

/-- A response that is not accepted yields the nil response, no fragments and
the error of `mutationError`. -/
theorem applyMutation_rejected (pc : PolicyContext)
    (ha : ¬ accepted h (engineContext h request pc)) :
    (applyMutation h request pc).1 =
      ⟨none, [], some (mutationError h (engineContext h request pc))⟩ := by
  revert ha
  simp only [applyMutation, engineContext, accepted, schemaGate, mutationError]
  split_ifs <;> (try split) <;> simp_all [PolicyContext.WithNamespaceLabels]

/-- The log of one `applyMutation` call holds exactly one engine call. -/
theorem mutateCalls_applyMutation (pc : PolicyContext) :
    mutateCalls (applyMutation h request pc).2 = [engineContext h request pc] := by
  rw [applyMutation_log]
  simp only [mutateCalls_append]
  split_ifs <;> simp [mutateCalls]

theorem eventAdds_applyMutation (pc : PolicyContext) :
    eventAdds (applyMutation h request pc).2 = [] := by
  rw [applyMutation_log]
  simp only [eventAdds_append]
  split_ifs <;> simp [eventAdds]

theorem nsLookups_applyMutation (pc : PolicyContext) :
    nsLookups (applyMutation h request pc).2 =
      if request.Kind ≠ "Namespace" ∧ request.Namespace ≠ "" then
        [(request.Kind, request.Namespace)] else [] := by
  rw [applyMutation_log]
  simp only [nsLookups_append]
  split_ifs <;> simp [nsLookups]

/-! ## Lemmas on the loop of `applyMutations` -/

theorem policyStep_accepted (p : Policy) (s : LoopState)
    (ha : accepted h (engineContext h request (s.policyContext.WithPolicy p))) :
    policyStep h request p s = (none, nextState h request p s) := by
  unfold policyStep nextState
  simp only [applyMutation_accepted h request _ ha]
  split_ifs with hl
  · rfl
  · have : (h.engineMutate (engineContext h request (s.policyContext.WithPolicy p))).GetPatches = [] := by
      cases hq : (h.engineMutate (engineContext h request (s.policyContext.WithPolicy p))).GetPatches with
      | nil => rfl
      | cons a t => rw [hq] at hl; simp at hl
    simp [this]

theorem policyStep_rejected (p : Policy) (s : LoopState)
    (ha : ¬ accepted h (engineContext h request (s.policyContext.WithPolicy p))) :
    policyStep h request p s =
      (some ("mutation policy " ++ p.name ++ " error: "
          ++ mutationError h (engineContext h request (s.policyContext.WithPolicy p))),
        { s with log := s.log ++ (applyMutation h request (s.policyContext.WithPolicy p)).2 }) := by
  unfold policyStep
  simp only [applyMutation_rejected h request _ ha]

theorem applyLoop_skip (p : Policy) (ps : List Policy) (s : LoopState)
    (hm : p.hasMutate = false) :
    applyLoop h request (p :: ps) s = applyLoop h request ps s := by
  simp [applyLoop, hm]

theorem applyLoop_accepted (p : Policy) (ps : List Policy) (s : LoopState)
    (hm : ¬ p.hasMutate = false)
    (ha : accepted h (engineContext h request (s.policyContext.WithPolicy p))) :
    applyLoop h request (p :: ps) s = applyLoop h request ps (nextState h request p s) := by
  simp [applyLoop, hm, policyStep_accepted h request p s ha]

theorem applyLoop_rejected (p : Policy) (ps : List Policy) (s : LoopState)
    (hm : ¬ p.hasMutate = false)
    (ha : ¬ accepted h (engineContext h request (s.policyContext.WithPolicy p))) :
    applyLoop h request (p :: ps) s =
      (some ("mutation policy " ++ p.name ++ " error: "
          ++ mutationError h (engineContext h request (s.policyContext.WithPolicy p))),
        { s with log := s.log ++ (applyMutation h request (s.policyContext.WithPolicy p)).2 }) := by
  simp [applyLoop, hm, policyStep_rejected h request p s ha]

theorem engineCalls_skip (p : Policy) (ps : List Policy) (ctx : PolicyContext)
    (hm : p.hasMutate = false) :
    engineCalls h request ctx (p :: ps) = engineCalls h request ctx ps := by
  simp [engineCalls, hm]

theorem engineCalls_accepted (p : Policy) (ps : List Policy) (s : LoopState)
    (hm : ¬ p.hasMutate = false)
    (ha : accepted h (engineContext h request (s.policyContext.WithPolicy p))) :
    engineCalls h request s.policyContext (p :: ps) =
      engineContext h request (s.policyContext.WithPolicy p) ::
        engineCalls h request (nextState h request p s).policyContext ps := by
  simp [engineCalls, hm, ha, nextState]

theorem engineCalls_rejected (p : Policy) (ps : List Policy) (ctx : PolicyContext)
    (hm : ¬ p.hasMutate = false)
    (ha : ¬ accepted h (engineContext h request (ctx.WithPolicy p))) :
    engineCalls h request ctx (p :: ps) = [engineContext h request (ctx.WithPolicy p)] := by
  simp [engineCalls, hm, ha]

/-- What the loop does, in terms of the engine calls it makes. -/
theorem applyLoop_spec (pols : List Policy) (s : LoopState) :
    mutateCalls (applyLoop h request pols s).2.log
        = mutateCalls s.log ++ engineCalls h request s.policyContext pols ∧
    nsLookups (applyLoop h request pols s).2.log
        = nsLookups s.log ++ (engineCalls h request s.policyContext pols).flatMap (fun _ =>
            if request.Kind ≠ "Namespace" ∧ request.Namespace ≠ "" then
              [(request.Kind, request.Namespace)] else []) ∧
    eventAdds (applyLoop h request pols s).2.log = eventAdds s.log ∧
    ((applyLoop h request pols s).1 = none →
      (∀ c ∈ engineCalls h request s.policyContext pols, accepted h c) ∧
      (applyLoop h request pols s).2.patches
        = s.patches ++ (engineCalls h request s.policyContext pols).flatMap
            (fun c => (h.engineMutate c).GetPatches) ∧
      (applyLoop h request pols s).2.engineResponses
        = s.engineResponses ++ (engineCalls h request s.policyContext pols).map h.engineMutate) ∧
    (∀ e, (applyLoop h request pols s).1 = some e →
      ∃ init c, engineCalls h request s.policyContext pols = init ++ [c] ∧
        (∀ c' ∈ init, accepted h c') ∧ ¬ accepted h c ∧
        e = "mutation policy " ++ c.policy.name ++ " error: " ++ mutationError h c) := by
  induction pols generalizing s with
  | nil => simp [applyLoop, engineCalls]
  | cons p ps ih =>
    by_cases hm : p.hasMutate = false
    · rw [applyLoop_skip h request p ps s hm, engineCalls_skip h request p ps _ hm]
      exact ih s
    · by_cases ha : accepted h (engineContext h request (s.policyContext.WithPolicy p))
      · rw [applyLoop_accepted h request p ps s hm ha, engineCalls_accepted h request p ps s hm ha]
        obtain ⟨i1, i2, i3, i4, i5⟩ := ih (nextState h request p s)
        have hlog : (nextState h request p s).log
            = s.log ++ (applyMutation h request (s.policyContext.WithPolicy p)).2 := rfl
        have hpat : (nextState h request p s).patches = s.patches ++
            (h.engineMutate (engineContext h request (s.policyContext.WithPolicy p))).GetPatches := rfl
        have hres : (nextState h request p s).engineResponses = s.engineResponses ++
            [h.engineMutate (engineContext h request (s.policyContext.WithPolicy p))] := rfl
        rw [hlog] at i1 i2 i3
        simp only [mutateCalls_append, nsLookups_append, eventAdds_append,
          mutateCalls_applyMutation, nsLookups_applyMutation, eventAdds_applyMutation] at i1 i2 i3
        refine ⟨?_, ?_, ?_, ?_, ?_⟩
        · rw [i1]; simp
        · rw [i2]; simp
        · rw [i3]; simp
        · intro he
          obtain ⟨j1, j2, j3⟩ := i4 he
          refine ⟨?_, ?_, ?_⟩
          · intro c hc
            rcases List.mem_cons.mp hc with rfl | hc
            · exact ha
            · exact j1 c hc
          · rw [j2, hpat]; simp
          · rw [j3, hres]; simp
        · intro e he
          obtain ⟨init, c, k1, k2, k3, k4⟩ := i5 e he
          refine ⟨engineContext h request (s.policyContext.WithPolicy p) :: init, c, ?_, ?_, k3, k4⟩
          · rw [k1]; rfl
          · intro c' hc'
            rcases List.mem_cons.mp hc' with rfl | hc'
            · exact ha
            · exact k2 c' hc'
      · rw [applyLoop_rejected h request p ps s hm ha, engineCalls_rejected h request p ps _ hm ha]
        refine ⟨?_, ?_, ?_, by simp, ?_⟩
        · simp [mutateCalls_applyMutation]
        · simp [nsLookups_applyMutation]
        · simp [eventAdds_applyMutation]
        intro e he
        refine ⟨[], _, rfl, by simp, ha, ?_⟩
        simp only [Option.some.injEq] at he
        rw [← he, engineContext_policy]
        rfl

/-! ## Lemmas on the engine calls -/

/-- The engine is called for the mutate-capable policies, in list order. -/
theorem engineCalls_policy_initial (pols : List Policy) (ctx : PolicyContext) :
    (engineCalls h request ctx pols).map (fun c => c.policy)
      <+: pols.filter (fun p => p.hasMutate) := by
  induction pols generalizing ctx with
  | nil => simp [engineCalls]
  | cons p ps ih =>
    by_cases hm : p.hasMutate = false
    · rw [engineCalls_skip h request p ps ctx hm]
      simpa [List.filter, hm] using ih ctx
    · have hm' : p.hasMutate = true := by simpa using hm
      by_cases ha : accepted h (engineContext h request (ctx.WithPolicy p))
      · have := engineCalls_accepted h request p ps ⟨[], [], ctx, []⟩ hm ha
        simp only at this
        rw [this]
        simp only [List.map_cons, List.filter, hm', engineContext_policy]
        have hp : (ctx.WithPolicy p).policy = p := rfl
        rw [hp]
        exact (List.prefix_cons_inj p).mpr (ih _)
      · rw [engineCalls_rejected h request p ps ctx hm ha]
        simp only [List.map_cons, List.map_nil, List.filter, hm', engineContext_policy]
        have hp : (ctx.WithPolicy p).policy = p := rfl
        rw [hp]
        exact (List.prefix_cons_inj p).mpr ⟨_, rfl⟩

/-- When every response is accepted the engine is called for every
mutate-capable policy. -/
theorem engineCalls_policy_all (pols : List Policy) (ctx : PolicyContext)
    (hall : ∀ c ∈ engineCalls h request ctx pols, accepted h c) :
    (engineCalls h request ctx pols).map (fun c => c.policy)
      = pols.filter (fun p => p.hasMutate) := by
  induction pols generalizing ctx with
  | nil => simp [engineCalls]
  | cons p ps ih =>
    by_cases hm : p.hasMutate = false
    · rw [engineCalls_skip h request p ps ctx hm] at hall ⊢
      simpa [List.filter, hm] using ih ctx hall
    · have hm' : p.hasMutate = true := by simpa using hm
      by_cases ha : accepted h (engineContext h request (ctx.WithPolicy p))
      · have := engineCalls_accepted h request p ps ⟨[], [], ctx, []⟩ hm ha
        simp only at this
        rw [this] at hall ⊢
        simp only [List.map_cons, List.filter, hm', engineContext_policy]
        have hp : (ctx.WithPolicy p).policy = p := rfl
        rw [hp, ih _ (fun c hc => hall c (List.mem_cons_of_mem _ hc))]
      · rw [engineCalls_rejected h request p ps ctx hm ha] at hall
        exact absurd (hall _ (List.mem_singleton.mpr rfl)) ha

/-- The first engine call sees the object of the running context. -/
theorem engineCalls_head (pols : List Policy) (ctx c : PolicyContext)
    (hc : (engineCalls h request ctx pols)[0]? = some c) :
    c.newResource = ctx.newResource := by
  induction pols generalizing ctx with
  | nil => simp [engineCalls] at hc
  | cons p ps ih =>
    by_cases hm : p.hasMutate = false
    · rw [engineCalls_skip h request p ps ctx hm] at hc
      exact ih ctx hc
    · by_cases ha : accepted h (engineContext h request (ctx.WithPolicy p))
      · have := engineCalls_accepted h request p ps ⟨[], [], ctx, []⟩ hm ha
        simp only at this
        rw [this] at hc
        simp only [List.getElem?_cons_zero, Option.some.injEq] at hc
        rw [← hc, engineContext_newResource]
        rfl
      · rw [engineCalls_rejected h request p ps ctx hm ha] at hc
        simp only [List.getElem?_cons_zero, Option.some.injEq] at hc
        rw [← hc, engineContext_newResource]
        rfl

/-- Each later engine call sees the object as patched by the previous response. -/
theorem engineCalls_chain (pols : List Policy) (ctx : PolicyContext) (j : Nat)
    (c' c : PolicyContext)
    (hc' : (engineCalls h request ctx pols)[j]? = some c')
    (hc : (engineCalls h request ctx pols)[j + 1]? = some c) :
    c.newResource = (h.engineMutate c').PatchedResource := by
  induction pols generalizing ctx j with
  | nil => simp [engineCalls] at hc
  | cons p ps ih =>
    by_cases hm : p.hasMutate = false
    · rw [engineCalls_skip h request p ps ctx hm] at hc hc'
      exact ih ctx j hc' hc
    · by_cases ha : accepted h (engineContext h request (ctx.WithPolicy p))
      · have := engineCalls_accepted h request p ps ⟨[], [], ctx, []⟩ hm ha
        simp only at this
        rw [this] at hc hc'
        simp only [List.getElem?_cons_succ] at hc
        cases j with
        | zero =>
          simp only [List.getElem?_cons_zero, Option.some.injEq] at hc'
          have := engineCalls_head h request ps _ c hc
          rw [this, ← hc']
          rfl
        | succ j =>
          simp only [List.getElem?_cons_succ] at hc'
          exact ih _ j hc' hc
      · rw [engineCalls_rejected h request p ps ctx hm ha] at hc
        simp at hc

/-! ## Lemmas on `applyMutations` -/

/-- The engine calls of a run of `applyMutations`. -/
theorem mutateCalls_applyMutations (pols : List Policy) (base : PolicyContext) :
    mutateCalls (applyMutations h request pols base).2 = engineCalls h request base pols := by
  unfold applyMutations
  split_ifs with hl
  · have : pols = [] := List.length_eq_zero.mp hl
    subst this
    simp [mutateCalls, engineCalls]
  · have hs := (applyLoop_spec h request pols ⟨[], [], base, []⟩).1
    split
    · next err s' heq => rw [heq] at hs; simpa [mutateCalls] using hs
    · next s' heq => rw [heq] at hs; simpa [mutateCalls] using hs

/-- The error of `applyMutations` is the error of its loop. -/
theorem applyMutations_err (pols : List Policy) (base : PolicyContext) :
    (applyMutations h request pols base).1.err
      = (applyLoop h request pols ⟨[], [], base, []⟩).1 := by
  unfold applyMutations
  split_ifs with hl
  · have : pols = [] := List.length_eq_zero.mp hl
    subst this
    simp [applyLoop]
  · split
    · next err s' heq => rw [heq]
    · next s' heq => rw [heq]

/-- The loop returns no error exactly when every engine call was accepted. -/
theorem applyLoop_ok_iff (pols : List Policy) (s : LoopState) :
    (applyLoop h request pols s).1 = none ↔
      ∀ c ∈ engineCalls h request s.policyContext pols, accepted h c := by
  obtain ⟨-, -, -, h4, h5⟩ := applyLoop_spec h request pols s
  constructor
  · intro he
    exact (h4 he).1
  · intro hall
    cases he : (applyLoop h request pols s).1 with
    | none => rfl
    | some e =>
      obtain ⟨init, c, k1, -, k3, -⟩ := h5 e he
      exact absurd (hall c (by rw [k1]; simp)) k3

end Lemmas



/-! ## Lemmas on namespace labels and on messages -/

section Labels

variable (h : mutationHandler) (request : AdmissionRequest)

@[simp] theorem lookupsAndCalls_append (a b : List Effect) :
    lookupsAndCalls (a ++ b) = lookupsAndCalls a ++ lookupsAndCalls b := by
  simp [lookupsAndCalls]

/-- The labels of the context handed to the engine. -/
theorem engineContext_namespaceLabels (pc : PolicyContext) :
    (engineContext h request pc).namespaceLabels =
      if request.Kind ≠ "Namespace" ∧ request.Namespace ≠ "" then
        h.GetNamespaceSelectorsFromNamespaceLister request.Kind request.Namespace
      else pc.namespaceLabels := by
  unfold engineContext
  split <;> rfl

theorem lookupsAndCalls_applyMutation (pc : PolicyContext) :
    lookupsAndCalls (applyMutation h request pc).2 =
      (if request.Kind ≠ "Namespace" ∧ request.Namespace ≠ "" then
          [Effect.nsLookup request.Kind request.Namespace] else [])
      ++ [Effect.mutate (engineContext h request pc)] := by
  rw [applyMutation_log]
  simp only [lookupsAndCalls_append]
  split_ifs <;> simp [lookupsAndCalls]

/-- Every engine call of the loop carries the labels `applyMutation` would
give the running context. -/
theorem engineCalls_namespaceLabels (pols : List Policy) (ctx : PolicyContext) :
    ∀ c ∈ engineCalls h request ctx pols,
      c.namespaceLabels = (engineContext h request ctx).namespaceLabels := by
  induction pols generalizing ctx with
  | nil => simp [engineCalls]
  | cons p ps ih =>
    have hhead : (engineContext h request (ctx.WithPolicy p)).namespaceLabels
        = (engineContext h request ctx).namespaceLabels := by
      rw [engineContext_namespaceLabels, engineContext_namespaceLabels]
      rfl
    by_cases hm : p.hasMutate = false
    · rw [engineCalls_skip h request p ps ctx hm]
      exact ih ctx
    · by_cases ha : accepted h (engineContext h request (ctx.WithPolicy p))
      · have := engineCalls_accepted h request p ps ⟨[], [], ctx, []⟩ hm ha
        simp only at this
        rw [this]
        intro c hc
        rcases List.mem_cons.mp hc with rfl | hc
        · exact hhead
        · rw [ih _ c hc, engineContext_namespaceLabels, engineContext_namespaceLabels]
          rfl
      · rw [engineCalls_rejected h request p ps ctx hm ha]
        intro c hc
        rw [List.mem_singleton.mp hc]
        exact hhead

/-- The lookups and engine calls of the loop, interleaved as they happen. -/
theorem lookupsAndCalls_applyLoop (pols : List Policy) (s : LoopState) :
    lookupsAndCalls (applyLoop h request pols s).2.log =
      lookupsAndCalls s.log ++ (engineCalls h request s.policyContext pols).flatMap (fun c =>
        (if request.Kind ≠ "Namespace" ∧ request.Namespace ≠ "" then
          [Effect.nsLookup request.Kind request.Namespace] else []) ++ [Effect.mutate c]) := by
  induction pols generalizing s with
  | nil => simp [applyLoop, engineCalls]
  | cons p ps ih =>
    by_cases hm : p.hasMutate = false
    · rw [applyLoop_skip h request p ps s hm, engineCalls_skip h request p ps _ hm]
      exact ih s
    · by_cases ha : accepted h (engineContext h request (s.policyContext.WithPolicy p))
      · rw [applyLoop_accepted h request p ps s hm ha, engineCalls_accepted h request p ps s hm ha,
          ih (nextState h request p s)]
        have hlog : (nextState h request p s).log
            = s.log ++ (applyMutation h request (s.policyContext.WithPolicy p)).2 := rfl
        rw [hlog, lookupsAndCalls_append, lookupsAndCalls_applyMutation]
        simp
      · rw [applyLoop_rejected h request p ps s hm ha, engineCalls_rejected h request p ps _ hm ha]
        simp only [lookupsAndCalls_append, lookupsAndCalls_applyMutation]
        simp

/-- The lookups and engine calls of a run of `applyMutations`. -/
theorem lookupsAndCalls_applyMutations (pols : List Policy) (base : PolicyContext) :
    lookupsAndCalls (applyMutations h request pols base).2 =
      (mutateCalls (applyMutations h request pols base).2).flatMap (fun c =>
        (if request.Kind ≠ "Namespace" ∧ request.Namespace ≠ "" then
          [Effect.nsLookup request.Kind request.Namespace] else []) ++ [Effect.mutate c]) := by
  have hlog : lookupsAndCalls (applyMutations h request pols base).2 =
      lookupsAndCalls (applyLoop h request pols ⟨[], [], base, []⟩).2.log := by
    unfold applyMutations
    split_ifs with hl
    · have : pols = [] := List.length_eq_zero.mp hl
      subst this
      simp [applyLoop, lookupsAndCalls]
    · split
      · next err s' heq => rw [heq]
      · next s' heq => rw [heq]; simp [lookupsAndCalls]
  rw [hlog, mutateCalls_applyMutations, lookupsAndCalls_applyLoop]
  simp [lookupsAndCalls]

theorem intercalate_go_data (sep : String) (l : List String) (acc : String) :
    ∃ t : List Char, (String.intercalate.go acc sep l).data = acc.data ++ t ∧
      ∀ r ∈ l, r.data <:+: t := by
  induction l generalizing acc with
  | nil => exact ⟨[], by simp [String.intercalate.go], by simp⟩
  | cons a as ih =>
    obtain ⟨t, ht, hr⟩ := ih (acc ++ sep ++ a)
    refine ⟨sep.data ++ a.data ++ t, ?_, ?_⟩
    · simp [String.intercalate.go, ht, String.data_append, List.append_assoc]
    · intro r hr'
      rcases List.mem_cons.mp hr' with rfl | hmem
      · exact ⟨sep.data, t, rfl⟩
      · obtain ⟨u, v, huv⟩ := hr r hmem
        exact ⟨sep.data ++ a.data ++ u, v, by simp [← huv, List.append_assoc]⟩

/-- The rendering of a list of strings contains each of them. -/
theorem fmtV_contains (l : List String) (r : String) (hr : r ∈ l) :
    r.data <:+: (fmtV l).data := by
  unfold fmtV
  simp only [String.data_append]
  cases l with
  | nil => simp at hr
  | cons a as =>
    obtain ⟨t, ht, hin⟩ := intercalate_go_data " " as a
    have hd : (" ".intercalate (a :: as)).data = a.data ++ t := by
      simpa [String.intercalate] using ht
    rw [hd]
    rcases List.mem_cons.mp hr with rfl | hmem
    · exact ⟨"[".data, t ++ "]".data, by simp [List.append_assoc]⟩
    · obtain ⟨u, v, huv⟩ := hin r hmem
      exact ⟨"[".data ++ a.data ++ u, v ++ "]".data, by simp [← huv, List.append_assoc]⟩

end Labels

/-! ## Properties of the mutation pipeline -/

section Pipeline

variable (h : mutationHandler) (request : AdmissionRequest)

theorem contains_mid (a b c : String) : contains (a ++ b ++ c) b := by
  unfold contains
  simp only [String.data_append]
  exact ⟨a.data, c.data, rfl⟩

theorem applyMutations_error_shape (policies : List Policy) (policyContext : PolicyContext)
    (e : String) (he : (applyMutations h request policies policyContext).1.err = some e) :
    (applyMutations h request policies policyContext).1 = ⟨none, [], some e⟩ := by
  revert he
  unfold applyMutations
  split_ifs with hl
  · simp
  · split <;> simp

theorem applyLoop_no_mutate (policies : List Policy) (s : LoopState)
    (hno : ∀ p ∈ policies, p.hasMutate = false) :
    applyLoop h request policies s = (none, s) := by
  induction policies with
  | nil => rfl
  | cons p ps ih =>
    rw [applyLoop_skip h request p ps s (hno p (List.mem_cons_self _ _))]
    exact ih (fun q hq => hno q (List.mem_cons_of_mem _ hq))

/-- The run of `applyMutations` on a non-empty list whose loop returned no error. -/
theorem applyMutations_ok (policies : List Policy) (policyContext : PolicyContext)
    (hne : policies ≠ [])
    (he : (applyLoop h request policies ⟨[], [], policyContext, []⟩).1 = none) :
    applyMutations h request policies policyContext =
      (⟨h.JoinPatches (withAnnotations h (applyLoop h request policies ⟨[], [], policyContext, []⟩).2),
        (applyLoop h request policies ⟨[], [], policyContext, []⟩).2.engineResponses, none⟩,
       (applyLoop h request policies ⟨[], [], policyContext, []⟩).2.log ++
        [Effect.eventAdd (h.GenerateEvents
          (applyLoop h request policies ⟨[], [], policyContext, []⟩).2.engineResponses false)]) := by
  have hl : ¬ policies.length = 0 := fun hl => hne (List.length_eq_zero.mp hl)
  unfold applyMutations
  rw [if_neg hl]
  split
  · next err s' heq => rw [heq] at he; simp at he
  · next s' heq => rw [heq]

/-- The run of `applyMutations` whose loop returned an error. -/
theorem applyMutations_failed (policies : List Policy) (policyContext : PolicyContext)
    (e : String)
    (he : (applyLoop h request policies ⟨[], [], policyContext, []⟩).1 = some e) :
    applyMutations h request policies policyContext =
      (⟨none, [], some e⟩, (applyLoop h request policies ⟨[], [], policyContext, []⟩).2.log) := by
  have hl : ¬ policies.length = 0 := by
    intro hl
    have : policies = [] := List.length_eq_zero.mp hl
    subst this
    simp [applyLoop] at he
  unfold applyMutations
  rw [if_neg hl]
  split
  · next err s' heq => rw [heq] at he; simp at he; rw [heq, he]
  · next s' heq => rw [heq] at he; simp at he

/-- C1 (all-or-nothing). If a run of `applyMutations` reaches a policy whose
engine response is not successful, or whose mutated object is rejected by
schema validation (some engine call of the run is not accepted), then
`applyMutations` returns a nil patch, a nil response list and a non-nil error,
and `HandleMutation` returns nil, nil and that same error; and in no run does
either function return a patch (or responses, or warnings) together with an
error. -/
theorem applyMutations_all_or_nothing (policies : List Policy) (policyContext : PolicyContext) :
    ((∃ c ∈ mutateCalls (applyMutations h request policies policyContext).2, ¬ accepted h c) →
      ∃ e, (applyMutations h request policies policyContext).1 = ⟨none, [], some e⟩ ∧
        (HandleMutation h request policies policyContext).1 = ⟨none, [], some e⟩) ∧
    ((applyMutations h request policies policyContext).1.err ≠ none →
      (applyMutations h request policies policyContext).1.patch = none ∧
      (applyMutations h request policies policyContext).1.responses = []) ∧
    ((HandleMutation h request policies policyContext).1.err ≠ none →
      (HandleMutation h request policies policyContext).1.patch = none ∧
      (HandleMutation h request policies policyContext).1.warnings = []) := by
  refine ⟨?_, ?_, ?_⟩
  · rintro ⟨c, hc, hna⟩
    rw [mutateCalls_applyMutations] at hc
    cases he : (applyLoop h request policies ⟨[], [], policyContext, []⟩).1 with
    | none => exact absurd ((applyLoop_ok_iff h request policies _).mp he c hc) hna
    | some e =>
      have hA := applyMutations_failed h request policies policyContext e he
      refine ⟨e, by rw [hA], ?_⟩
      unfold HandleMutation
      simp only [hA]
  · intro hne
    cases he : (applyMutations h request policies policyContext).1.err with
    | none => exact absurd he hne
    | some e => rw [applyMutations_error_shape h request policies policyContext e he]; simp
  · unfold HandleMutation
    cases he : (applyMutations h request policies policyContext).1.err <;> simp [he]

/-- C1, witness: `add-label` succeeds and contributes a fragment, then
`forbid-privileged` fails. -/
theorem applyMutations_all_or_nothing_witness :
    ∃ e, (applyMutations demoHandler demoRequest
            [addLabel, auditOnly, forbidPrivileged, addOwner] demoBase).1 = ⟨none, [], some e⟩ ∧
      (HandleMutation demoHandler demoRequest
            [addLabel, auditOnly, forbidPrivileged, addOwner] demoBase).1 = ⟨none, [], some e⟩ :=
  (applyMutations_all_or_nothing demoHandler demoRequest
      [addLabel, auditOnly, forbidPrivileged, addOwner] demoBase).1
    ⟨⟨⟨"v1", "Pod", "pod1+add-label"⟩, forbidPrivileged, [("name", "ns1")]⟩,
      by decide, by decide⟩

/-- C2 as stated fails. Both `add-label` and `add-owner` are mutate-capable
and succeed on a ConfigMap that none of their rules patches; the annotation
generator returns nil, so nothing is appended on line 130 and the returned
patch is nil: it is not the join of the policies' fragments followed by one
trailing annotation fragment, whatever that fragment is. Likewise on the empty
policy list, where line 83 returns a nil patch at once. -/
theorem patch_ordering_counterexample :
    (applyMutations demoHandler configMapRequest [addLabel, addOwner] configMapBase).1.err = none ∧
    (mutateCalls (applyMutations demoHandler configMapRequest
        [addLabel, addOwner] configMapBase).2).map (fun c => c.policy) = [addLabel, addOwner] ∧
    (applyMutations demoHandler configMapRequest [addLabel, addOwner] configMapBase).1.patch = none ∧
    (¬ ∃ ann : Bytes,
      (applyMutations demoHandler configMapRequest [addLabel, addOwner] configMapBase).1.patch =
        demoHandler.JoinPatches
          ((mutateCalls (applyMutations demoHandler configMapRequest
              [addLabel, addOwner] configMapBase).2).flatMap
            (fun c => (demoHandler.engineMutate c).GetPatches) ++ [ann])) ∧
    (applyMutations demoHandler demoRequest [] demoBase).1.patch = none ∧
    (¬ ∃ ann : Bytes,
      (applyMutations demoHandler demoRequest [] demoBase).1.patch =
        demoHandler.JoinPatches
          ((mutateCalls (applyMutations demoHandler demoRequest [] demoBase).2).flatMap
            (fun c => (demoHandler.engineMutate c).GetPatches) ++ [ann])) := by
  refine ⟨by decide, by decide, by decide, ?_, by decide, ?_⟩
  · rintro ⟨ann, hann⟩
    have hp : (applyMutations demoHandler configMapRequest
        [addLabel, addOwner] configMapBase).1.patch = none := by decide
    rw [hp] at hann
    simp [demoHandler] at hann
  · rintro ⟨ann, hann⟩
    have hp : (applyMutations demoHandler demoRequest [] demoBase).1.patch = none := by decide
    rw [hp] at hann
    simp [demoHandler] at hann

/-- C2, amended (patch ordering). On a non-empty policy list in which every
engine response is accepted, the engine was called for every mutate-capable
policy in list order, the responses are returned in that order, and the patch
is the join of the first policy's fragments, then the second's, and so on
(each response's fragments in the order the response lists them), followed by
the fragments `GenerateAnnotationPatches` returns for the response list,
nothing being appended when it returns nil. On the empty list the patch is
nil. -/
theorem applyMutations_patch_order (policies : List Policy) (policyContext : PolicyContext) :
    (policies ≠ [] →
      (∀ c ∈ mutateCalls (applyMutations h request policies policyContext).2, accepted h c) →
      (mutateCalls (applyMutations h request policies policyContext).2).map (fun c => c.policy)
        = policies.filter (fun p => p.hasMutate) ∧
      (applyMutations h request policies policyContext).1 =
        ⟨h.JoinPatches
          ((mutateCalls (applyMutations h request policies policyContext).2).flatMap
              (fun c => (h.engineMutate c).GetPatches) ++
            (h.GenerateAnnotationPatches
              ((mutateCalls (applyMutations h request policies policyContext).2).map
                h.engineMutate)).getD []),
          (mutateCalls (applyMutations h request policies policyContext).2).map h.engineMutate,
          none⟩) ∧
    (policies = [] → (applyMutations h request policies policyContext).1 = ⟨none, [], none⟩) := by
  refine ⟨?_, ?_⟩
  · intro hne hall
    rw [mutateCalls_applyMutations] at hall ⊢
    have he := (applyLoop_ok_iff h request policies ⟨[], [], policyContext, []⟩).mpr hall
    obtain ⟨-, -, -, h4, -⟩ := applyLoop_spec h request policies ⟨[], [], policyContext, []⟩
    obtain ⟨-, hp, hr⟩ := h4 he
    refine ⟨engineCalls_policy_all h request policies policyContext hall, ?_⟩
    rw [applyMutations_ok h request policies policyContext hne he]
    simp only [List.nil_append] at hp hr
    simp only [withAnnotations, hp, hr]
    cases h.GenerateAnnotationPatches (List.map h.engineMutate
      (engineCalls h request policyContext policies)) <;> simp
  · intro hnil
    subst hnil
    rfl

/-- C2, witness: `add-label` then `add-owner` on a Pod, each contributing one
fragment, followed by the annotation fragment. -/
theorem applyMutations_patch_order_witness :
    (applyMutations demoHandler demoRequest [addLabel, auditOnly, addOwner] demoBase).1.patch
      = some "[patch-add-label, patch-add-owner, annotation]" := by
  have hw := (applyMutations_patch_order demoHandler demoRequest
    [addLabel, auditOnly, addOwner] demoBase).1 (by decide) (by decide)
  rw [hw.2]
  decide

/-- C3 (sequential visibility). In every run of `applyMutations`, the context
of the k-th engine call carries the k-th mutate-capable policy of the list as
its active policy; the first call carries the object of the base context, and
every later call carries the `PatchedResource` of the engine response to the
call before it. -/
theorem applyMutations_sequential_visibility (policies : List Policy)
    (policyContext : PolicyContext) (k : Nat) (c : PolicyContext)
    (hc : (mutateCalls (applyMutations h request policies policyContext).2)[k]? = some c) :
    (policies.filter (fun p => p.hasMutate))[k]? = some c.policy ∧
    (k = 0 → c.newResource = policyContext.newResource) ∧
    (∀ j c', k = j + 1 →
      (mutateCalls (applyMutations h request policies policyContext).2)[j]? = some c' →
      c.newResource = (h.engineMutate c').PatchedResource) := by
  rw [mutateCalls_applyMutations] at hc ⊢
  refine ⟨?_, ?_, ?_⟩
  · obtain ⟨t, ht⟩ := engineCalls_policy_initial h request policies policyContext
    have hk : k < (engineCalls h request policyContext policies).length := by
      by_contra hge
      rw [List.getElem?_eq_none (Nat.le_of_not_lt hge)] at hc
      exact Option.noConfusion hc
    rw [← ht, List.getElem?_append_left (by simpa using hk), List.getElem?_map, hc]
    rfl
  · intro hk
    subst hk
    exact engineCalls_head h request policies policyContext c hc
  · intro j c' hk hc'
    subst hk
    exact engineCalls_chain h request policies policyContext j c' c hc' hc

/-- C3, witness: `add-owner`, second of two mutate-capable policies, is
evaluated against the object as mutated by `add-label`. -/
theorem applyMutations_sequential_visibility_witness :
    ([addLabel, auditOnly, addOwner].filter (fun p => p.hasMutate))[1]? = some addOwner ∧
    (⟨"v1", "Pod", "pod1+add-label"⟩ : Resource) =
      (demoHandler.engineMutate
        ⟨⟨"v1", "Pod", "pod1"⟩, addLabel, [("name", "ns1")]⟩).PatchedResource := by
  have hw := applyMutations_sequential_visibility demoHandler demoRequest
    [addLabel, auditOnly, addOwner] demoBase 1
    ⟨⟨"v1", "Pod", "pod1+add-label"⟩, addOwner, [("name", "ns1")]⟩ (by decide)
  exact ⟨hw.1, hw.2.2 0 ⟨⟨"v1", "Pod", "pod1"⟩, addLabel, [("name", "ns1")]⟩ rfl (by decide)⟩

/-- C4 (no-op). When no policy of the list declares mutate rules (the empty
list included), `applyMutations` calls neither the engine nor the validator
and returns nil responses and a nil error; the patch is nil on the empty list
and otherwise what `JoinPatches` makes of the annotation fragments generated
for no responses, which is nil as soon as the annotation generator and
`JoinPatches`, both outside this file, return nil on no responses and on no
fragments. -/
theorem applyMutations_noop (policies : List Policy) (policyContext : PolicyContext)
    (hno : ∀ p ∈ policies, p.hasMutate = false) :
    (applyMutations h request policies policyContext).1.responses = [] ∧
    (applyMutations h request policies policyContext).1.err = none ∧
    mutateCalls (applyMutations h request policies policyContext).2 = [] ∧
    validateCalls (applyMutations h request policies policyContext).2 = [] ∧
    (applyMutations h request policies policyContext).1.patch =
      (if policies = [] then none
        else h.JoinPatches ((h.GenerateAnnotationPatches []).getD [])) ∧
    (h.GenerateAnnotationPatches [] = none → h.JoinPatches [] = none →
      (applyMutations h request policies policyContext).1 = ⟨none, [], none⟩) := by
  have hloop := applyLoop_no_mutate h request policies ⟨[], [], policyContext, []⟩ hno
  by_cases hne : policies = []
  · subst hne
    simp [applyMutations, mutateCalls, validateCalls]
  · rw [applyMutations_ok h request policies policyContext hne (by rw [hloop])]
    rw [hloop, if_neg hne]
    refine ⟨rfl, rfl, by simp [mutateCalls], by simp [validateCalls], ?_, ?_⟩
    · simp only [withAnnotations]
      cases h.GenerateAnnotationPatches [] <;> simp
    · intro hann hjoin
      simp [withAnnotations, hann, hjoin]

/-- C4, witness: a list holding only a policy without mutate rules. -/
theorem applyMutations_noop_witness :
    (applyMutations demoHandler demoRequest [auditOnly] demoBase).1 = ⟨none, [], none⟩ :=
  (applyMutations_noop demoHandler demoRequest [auditOnly] demoBase (by decide)).2.2.2.2.2
    (by decide) (by decide)

/-- C5 (events). A run of `applyMutations` that returns an error never calls
`eventGen.Add`. A run over a non-empty list that returns no error calls it
exactly once, as its last collaborator call, after every engine call, with the
events `GenerateEvents` builds from the full response list, which is the list
of the engine's responses to the calls of the run. -/
theorem applyMutations_events (policies : List Policy) (policyContext : PolicyContext) :
    ((applyMutations h request policies policyContext).1.err ≠ none →
      eventAdds (applyMutations h request policies policyContext).2 = []) ∧
    ((applyMutations h request policies policyContext).1.err = none → policies ≠ [] →
      ∃ pre, (applyMutations h request policies policyContext).2 =
          pre ++ [Effect.eventAdd
            (h.GenerateEvents (applyMutations h request policies policyContext).1.responses false)] ∧
        eventAdds pre = [] ∧
        (applyMutations h request policies policyContext).1.responses
          = (mutateCalls pre).map h.engineMutate ∧
        eventAdds (applyMutations h request policies policyContext).2 =
          [h.GenerateEvents (applyMutations h request policies policyContext).1.responses false]) := by
  obtain ⟨h1, -, h3, h4, -⟩ := applyLoop_spec h request policies ⟨[], [], policyContext, []⟩
  refine ⟨?_, ?_⟩
  · intro hne
    rw [applyMutations_err] at hne
    cases he : (applyLoop h request policies ⟨[], [], policyContext, []⟩).1 with
    | none => exact absurd he hne
    | some e =>
      rw [applyMutations_failed h request policies policyContext e he]
      simpa [eventAdds] using h3
  · intro he hne
    rw [applyMutations_err] at he
    rw [applyMutations_ok h request policies policyContext hne he]
    obtain ⟨-, -, hr⟩ := h4 he
    refine ⟨_, rfl, ?_, ?_, ?_⟩
    · simpa [eventAdds] using h3
    · simp only [hr, h1]
      simp [mutateCalls]
    · rw [eventAdds_append, h3]
      simp [eventAdds]

/-- C5, witness: the failing run records no event, the successful one records
exactly one batch, built from both responses. -/
theorem applyMutations_events_witness :
    eventAdds (applyMutations demoHandler demoRequest
      [addLabel, forbidPrivileged] demoBase).2 = [] ∧
    eventAdds (applyMutations demoHandler demoRequest [addLabel, addOwner] demoBase).2 =
      [["event:pod1+add-label", "event:pod1+add-label+add-owner"]] := by
  refine ⟨(applyMutations_events demoHandler demoRequest
      [addLabel, forbidPrivileged] demoBase).1 (by decide), ?_⟩
  obtain ⟨pre, -, -, -, hev⟩ := (applyMutations_events demoHandler demoRequest
      [addLabel, addOwner] demoBase).2 (by decide) (by decide)
  rw [hev]
  decide

/-- C6 (namespace-label gating). For a request whose kind is "Namespace" or
whose namespace is empty, `applyMutation` performs no namespace-label lookup
and hands the engine the context it was given, labels untouched. For every
other request it performs exactly one lookup, keyed by the request's kind and
namespace, before its one engine call, and the context the engine receives
has the object and policy of the given context and, as its namespace labels,
the result of that lookup. In a run of `applyMutations` every engine call is
accordingly preceded by its own lookup and carries the looked-up labels, or
there is no lookup at all and every engine call carries the labels of the
base context. -/
theorem namespace_label_gating (policyContext : PolicyContext) (policies : List Policy) :
    ((request.Kind = "Namespace" ∨ request.Namespace = "") →
      nsLookups (applyMutation h request policyContext).2 = [] ∧
      mutateCalls (applyMutation h request policyContext).2 = [policyContext] ∧
      nsLookups (applyMutations h request policies policyContext).2 = [] ∧
      (∀ c ∈ mutateCalls (applyMutations h request policies policyContext).2,
        c.namespaceLabels = policyContext.namespaceLabels)) ∧
    ((request.Kind ≠ "Namespace" ∧ request.Namespace ≠ "") →
      nsLookups (applyMutation h request policyContext).2 = [(request.Kind, request.Namespace)] ∧
      mutateCalls (applyMutation h request policyContext).2 =
        [policyContext.WithNamespaceLabels
          (h.GetNamespaceSelectorsFromNamespaceLister request.Kind request.Namespace)] ∧
      mutateCalls (applyMutation h request policyContext).2 =
        [⟨policyContext.newResource, policyContext.policy,
          h.GetNamespaceSelectorsFromNamespaceLister request.Kind request.Namespace⟩] ∧
      lookupsAndCalls (applyMutation h request policyContext).2 =
        [Effect.nsLookup request.Kind request.Namespace,
         Effect.mutate ⟨policyContext.newResource, policyContext.policy,
          h.GetNamespaceSelectorsFromNamespaceLister request.Kind request.Namespace⟩] ∧
      nsLookups (applyMutations h request policies policyContext).2 =
        List.replicate (mutateCalls (applyMutations h request policies policyContext).2).length
          (request.Kind, request.Namespace) ∧
      (∀ c ∈ mutateCalls (applyMutations h request policies policyContext).2,
        c.namespaceLabels =
          h.GetNamespaceSelectorsFromNamespaceLister request.Kind request.Namespace) ∧
      lookupsAndCalls (applyMutations h request policies policyContext).2 =
        (mutateCalls (applyMutations h request policies policyContext).2).flatMap
          (fun c => [Effect.nsLookup request.Kind request.Namespace, Effect.mutate c])) := by
  have hloop := (applyLoop_spec h request policies ⟨[], [], policyContext, []⟩).2.1
  have hcalls := mutateCalls_applyMutations h request policies policyContext
  have hlabels := engineCalls_namespaceLabels h request policies policyContext
  have hinter := lookupsAndCalls_applyMutations h request policies policyContext
  have hns : nsLookups (applyMutations h request policies policyContext).2 =
      nsLookups (applyLoop h request policies ⟨[], [], policyContext, []⟩).2.log := by
    unfold applyMutations
    split_ifs with hl
    · have : policies = [] := List.length_eq_zero.mp hl
      subst this
      simp [applyLoop, nsLookups]
    · split
      · next err s' heq => rw [heq]
      · next s' heq => rw [heq]; simp [nsLookups]
  refine ⟨?_, ?_⟩
  · intro hg
    have hng : ¬ (request.Kind ≠ "Namespace" ∧ request.Namespace ≠ "") := by
      rintro ⟨h1, h2⟩
      rcases hg with hg | hg
      · exact h1 hg
      · exact h2 hg
    refine ⟨?_, ?_, ?_, ?_⟩
    · rw [nsLookups_applyMutation, if_neg hng]
    · rw [mutateCalls_applyMutation, engineContext, if_neg hng]
    · rw [hns, hloop, if_neg hng]
      simp [nsLookups]
    · intro c hc
      rw [hcalls] at hc
      rw [hlabels c hc, engineContext_namespaceLabels, if_neg hng]
  · intro hg
    have hctx : engineContext h request policyContext =
        ⟨policyContext.newResource, policyContext.policy,
          h.GetNamespaceSelectorsFromNamespaceLister request.Kind request.Namespace⟩ := by
      rw [engineContext, if_pos hg]
      rfl
    refine ⟨?_, ?_, ?_, ?_, ?_, ?_, ?_⟩
    · rw [nsLookups_applyMutation, if_pos hg]
    · rw [mutateCalls_applyMutation, engineContext, if_pos hg]
    · rw [mutateCalls_applyMutation, hctx]
    · rw [lookupsAndCalls_applyMutation, if_pos hg, hctx]
      rfl
    · rw [hns, hloop, if_pos hg, hcalls]
      simp only [nsLookups, List.filterMap_nil, List.nil_append]
      generalize engineCalls h request policyContext policies = cs
      induction cs with
      | nil => rfl
      | cons c cs ih => simp [List.replicate_succ, ih]
    · intro c hc
      rw [hcalls] at hc
      rw [hlabels c hc, engineContext_namespaceLabels, if_pos hg]
    · rw [hinter, if_pos hg]
      rfl

/-- C6, witness: for a Namespace request two policies are evaluated, without
any lookup and with the labels of the base context; for a Pod in `ns1` each of
the two engine calls is preceded by the lookup `("Pod", "ns1")` and carries
the labels it returned. -/
theorem namespace_label_gating_witness :
    nsLookups (applyMutations demoHandler ⟨"Namespace", "ns1"⟩ [addLabel, addOwner] demoBase).2 = [] ∧
    (mutateCalls (applyMutations demoHandler ⟨"Namespace", "ns1"⟩
        [addLabel, addOwner] demoBase).2).map (fun c => c.namespaceLabels) = [[], []] ∧
    nsLookups (applyMutations demoHandler demoRequest [addLabel, addOwner] demoBase).2 =
      [("Pod", "ns1"), ("Pod", "ns1")] ∧
    (mutateCalls (applyMutations demoHandler demoRequest
        [addLabel, addOwner] demoBase).2).map (fun c => c.namespaceLabels)
      = [[("name", "ns1")], [("name", "ns1")]] ∧
    (∀ c ∈ mutateCalls (applyMutations demoHandler demoRequest [addLabel, addOwner] demoBase).2,
      c.namespaceLabels = [("name", "ns1")]) ∧
    mutateCalls (applyMutation demoHandler demoRequest (demoBase.WithPolicy addLabel)).2 =
      [⟨⟨"v1", "Pod", "pod1"⟩, addLabel, [("name", "ns1")]⟩] := by
  have hoff := (namespace_label_gating demoHandler ⟨"Namespace", "ns1"⟩ demoBase
    [addLabel, addOwner]).1 (Or.inl rfl)
  have hon := (namespace_label_gating demoHandler demoRequest demoBase
    [addLabel, addOwner]).2 (by decide)
  have hone := (namespace_label_gating demoHandler demoRequest (demoBase.WithPolicy addLabel)
    []).2 (by decide)
  refine ⟨hoff.2.2.1, by decide, ?_, by decide, hon.2.2.2.2.2.1, hone.2.2.1⟩
  rw [hon.2.2.2.2.1]
  decide

/-- C7 (schema gate). `applyMutation` calls the engine once; it calls the
schema validator, once and on the mutated object, if and only if the engine
response is successful, the active policy has `ValidateSchema` true and the
mutated object's kind is not "*". In particular a policy with
`ValidateSchema` false never triggers a validation call, and an unsuccessful
response never reaches the validator. -/
theorem schema_gate (policyContext : PolicyContext) :
    ∃ c, mutateCalls (applyMutation h request policyContext).2 = [c] ∧
      c.policy = policyContext.policy ∧
      validateCalls (applyMutation h request policyContext).2 =
        (if (h.engineMutate c).IsSuccessful = true ∧ policyContext.policy.validateSchema = true ∧
            (h.engineMutate c).PatchedResource.kind ≠ "*" then
          [((h.engineMutate c).PatchedResource, (h.engineMutate c).PatchedResource.apiVersion,
            (h.engineMutate c).PatchedResource.kind)]
        else []) ∧
      (validateCalls (applyMutation h request policyContext).2 ≠ [] ↔
        ((h.engineMutate c).IsSuccessful = true ∧ policyContext.policy.validateSchema = true ∧
          (h.engineMutate c).PatchedResource.kind ≠ "*")) ∧
      (policyContext.policy.validateSchema = false →
        validateCalls (applyMutation h request policyContext).2 = []) ∧
      ((h.engineMutate c).IsSuccessful = false →
        validateCalls (applyMutation h request policyContext).2 = []) := by
  have hv : validateCalls (applyMutation h request policyContext).2 =
      (if (h.engineMutate (engineContext h request policyContext)).IsSuccessful = true ∧
          policyContext.policy.validateSchema = true ∧
          (h.engineMutate (engineContext h request policyContext)).PatchedResource.kind ≠ "*" then
        [((h.engineMutate (engineContext h request policyContext)).PatchedResource,
          (h.engineMutate (engineContext h request policyContext)).PatchedResource.apiVersion,
          (h.engineMutate (engineContext h request policyContext)).PatchedResource.kind)]
      else []) := by
    rw [applyMutation_log]
    simp only [validateCalls_append, schemaGate]
    split_ifs <;> simp [validateCalls]
  refine ⟨engineContext h request policyContext, mutateCalls_applyMutation h request policyContext,
    engineContext_policy h request policyContext, hv, ?_, ?_, ?_⟩
  · rw [hv]
    split_ifs with hc
    · simp [hc]
    · simp [hc]
  · intro hf
    rw [hv, if_neg]
    simp [hf]
  · intro hf
    rw [hv, if_neg]
    simp [hf]

/-- C7, witness: `add-owner` opts into schema validation and its mutated Pod
is validated once; `add-label` does not and triggers no validation. -/
theorem schema_gate_witness :
    validateCalls (applyMutation demoHandler demoRequest (demoBase.WithPolicy addOwner)).2 =
      [(⟨"v1", "Pod", "pod1+add-owner"⟩, "v1", "Pod")] ∧
    validateCalls (applyMutation demoHandler demoRequest (demoBase.WithPolicy addLabel)).2 = [] := by
  obtain ⟨c, hc, -, hv, -, -, -⟩ :=
    schema_gate demoHandler demoRequest (demoBase.WithPolicy addOwner)
  obtain ⟨c', -, -, -, -, hoff, -⟩ :=
    schema_gate demoHandler demoRequest (demoBase.WithPolicy addLabel)
  refine ⟨?_, hoff (by decide)⟩
  have hc0 : c = ⟨⟨"v1", "Pod", "pod1"⟩, addOwner, [("name", "ns1")]⟩ := by
    have hd : mutateCalls (applyMutation demoHandler demoRequest (demoBase.WithPolicy addOwner)).2
        = [⟨⟨"v1", "Pod", "pod1"⟩, addOwner, [("name", "ns1")]⟩] := by decide
    rw [hd] at hc
    exact (List.cons.inj hc).1.symm
  subst hc0
  rw [hv]
  decide

/-- C8 (the error identifies the culprit). Whenever `applyMutations` returns
an error, the last engine call of the run is the only one whose response was
not accepted, its policy is the mutate-capable policy at that position of the
list (so every earlier one succeeded and no later one was evaluated), and the
message contains that policy's name `N`. If that response is not successful
the message is `mutation policy N error: failed to apply policy N rules R`,
where `R` renders the failed rules with their errors: the message contains
every entry of `GetFailedRulesWithErrors`, `R` is those entries separated by
one space within square brackets, and for a single entry `r` the message ends
in `rules [r]`. Otherwise the validator rejected the mutated object with
some error `V`, the message is
`mutation policy N error: failed to validate resource mutated by policy N: V`,
and it contains `V`. -/
theorem applyMutations_error_names_culprit (policies : List Policy)
    (policyContext : PolicyContext) (e : String)
    (he : (applyMutations h request policies policyContext).1.err = some e) :
    ∃ init c, mutateCalls (applyMutations h request policies policyContext).2 = init ++ [c] ∧
      (∀ c' ∈ init, accepted h c') ∧ ¬ accepted h c ∧
      (policies.filter (fun p => p.hasMutate))[init.length]? = some c.policy ∧
      contains e c.policy.name ∧
      ((h.engineMutate c).IsSuccessful = false →
        e = "mutation policy " ++ c.policy.name ++ " error: " ++
            ("failed to apply policy " ++ c.policy.name ++ " rules "
              ++ fmtV (h.engineMutate c).GetFailedRulesWithErrors) ∧
        contains e (fmtV (h.engineMutate c).GetFailedRulesWithErrors) ∧
        (∀ r ∈ (h.engineMutate c).GetFailedRulesWithErrors, contains e r) ∧
        e = "mutation policy " ++ c.policy.name ++ " error: failed to apply policy "
            ++ c.policy.name ++ " rules ["
            ++ " ".intercalate (h.engineMutate c).GetFailedRulesWithErrors ++ "]" ∧
        (∀ r, (h.engineMutate c).GetFailedRulesWithErrors = [r] →
          e = "mutation policy " ++ c.policy.name ++ " error: failed to apply policy "
            ++ c.policy.name ++ " rules [" ++ r ++ "]")) ∧
      ((h.engineMutate c).IsSuccessful = true →
        ∃ verr, h.ValidateResource (h.engineMutate c).PatchedResource
            (h.engineMutate c).PatchedResource.apiVersion
            (h.engineMutate c).PatchedResource.kind = some verr ∧
          schemaGate c.policy (h.engineMutate c) ∧
          e = "mutation policy " ++ c.policy.name ++ " error: " ++
            ("failed to validate resource mutated by policy " ++ c.policy.name ++ ": " ++ verr) ∧
          contains e verr) := by
  rw [applyMutations_err] at he
  obtain ⟨init, c, k1, k2, k3, k4⟩ :=
    (applyLoop_spec h request policies ⟨[], [], policyContext, []⟩).2.2.2.2 e he
  rw [mutateCalls_applyMutations]
  refine ⟨init, c, k1, k2, k3, ?_, ?_, ?_, ?_⟩
  · obtain ⟨t, ht⟩ := engineCalls_policy_initial h request policies policyContext
    rw [k1] at ht
    rw [← ht, List.getElem?_append_left (by simp)]
    simp
  · rw [k4, String.append_assoc ("mutation policy " ++ c.policy.name)]
    exact contains_mid _ _ _
  · intro hf
    have hm : mutationError h c = "failed to apply policy " ++ c.policy.name ++ " rules "
        ++ fmtV (h.engineMutate c).GetFailedRulesWithErrors := by
      simp [mutationError, hf]
    have hcont : contains ("mutation policy " ++ c.policy.name ++ " error: " ++
        ("failed to apply policy " ++ c.policy.name ++ " rules "
          ++ fmtV (h.engineMutate c).GetFailedRulesWithErrors))
        (fmtV (h.engineMutate c).GetFailedRulesWithErrors) := by
      have := contains_mid ("mutation policy " ++ c.policy.name ++ " error: " ++
        ("failed to apply policy " ++ c.policy.name ++ " rules "))
        (fmtV (h.engineMutate c).GetFailedRulesWithErrors) ""
      simpa [String.append_assoc] using this
    rw [k4, hm]
    have h1 : (" error: failed to apply policy " : String)
        = " error: " ++ "failed to apply policy " := by decide
    have h2 : (" rules [" : String) = " rules " ++ "[" := by decide
    refine ⟨rfl, hcont, ?_, ?_, ?_⟩
    · intro r hr
      exact List.IsInfix.trans (fmtV_contains _ r hr) hcont
    · rw [h1, h2]
      simp only [fmtV, String.append_assoc]
    · intro r hr
      rw [hr, h1, h2]
      simp only [fmtV, String.intercalate, String.intercalate.go, String.append_assoc]
  · intro hs
    have hrej : ∃ verr, h.ValidateResource (h.engineMutate c).PatchedResource
        (h.engineMutate c).PatchedResource.apiVersion
        (h.engineMutate c).PatchedResource.kind = some verr ∧
        schemaGate c.policy (h.engineMutate c) := by
      by_contra hno
      apply k3
      refine ⟨hs, fun hg => ?_⟩
      cases hv : h.ValidateResource (h.engineMutate c).PatchedResource
        (h.engineMutate c).PatchedResource.apiVersion
        (h.engineMutate c).PatchedResource.kind with
      | none => rfl
      | some verr => exact absurd ⟨verr, hv, hg⟩ hno
    obtain ⟨verr, hv, hg⟩ := hrej
    have he' : e = "mutation policy " ++ c.policy.name ++ " error: " ++
        ("failed to validate resource mutated by policy " ++ c.policy.name ++ ": " ++ verr) := by
      rw [k4]
      simp [mutationError, hs, hv]
    refine ⟨verr, hv, hg, he', ?_⟩
    rw [he']
    have := contains_mid ("mutation policy " ++ c.policy.name ++ " error: " ++
      ("failed to validate resource mutated by policy " ++ c.policy.name ++ ": ")) verr ""
    simpa [String.append_assoc] using this

/-- C8, witness: the scenario of the specification. `add-label` succeeds,
`forbid-privileged` fails; the error of the run is the message below, which
names `forbid-privileged` and its failed rule with the rule's error. -/
theorem applyMutations_error_names_culprit_witness :
    (applyMutations demoHandler demoRequest
      [addLabel, forbidPrivileged, addOwner] demoBase).1.err =
      some ("mutation policy forbid-privileged error: failed to apply policy "
        ++ "forbid-privileged rules [check-privileged: denied]") ∧
    contains ("mutation policy forbid-privileged error: failed to apply policy "
        ++ "forbid-privileged rules [check-privileged: denied]") "forbid-privileged" ∧
    contains ("mutation policy forbid-privileged error: failed to apply policy "
        ++ "forbid-privileged rules [check-privileged: denied]") "check-privileged: denied" := by
  have herr : (applyMutations demoHandler demoRequest
      [addLabel, forbidPrivileged, addOwner] demoBase).1.err =
      some ("mutation policy forbid-privileged error: failed to apply policy "
        ++ "forbid-privileged rules [check-privileged: denied]") := by decide
  obtain ⟨init, c, h1, -, -, -, h5, h6, -⟩ :=
    applyMutations_error_names_culprit demoHandler demoRequest
      [addLabel, forbidPrivileged, addOwner] demoBase _ herr
  have hd : mutateCalls (applyMutations demoHandler demoRequest
      [addLabel, forbidPrivileged, addOwner] demoBase).2 =
      [⟨⟨"v1", "Pod", "pod1"⟩, addLabel, [("name", "ns1")]⟩] ++
      [⟨⟨"v1", "Pod", "pod1+add-label"⟩, forbidPrivileged, [("name", "ns1")]⟩] := by decide
  rw [hd] at h1
  have hc : c = ⟨⟨"v1", "Pod", "pod1+add-label"⟩, forbidPrivileged, [("name", "ns1")]⟩ :=
    ((List.append_inj' h1 rfl).2 ▸ rfl : [c] = [_]) |> fun hh => (List.cons.inj hh).1
  subst hc
  exact ⟨herr, h5, (h6 (by decide)).2.2.1 "check-privileged: denied" (by decide)⟩

end Pipeline

/-! ## Properties of the bootstrap -/

section Bootstrap

/-- The three ways the leader-election callback can go. -/
theorem leaderCallback_cases (signalCtx : Context) (genWorkers : Int) (term : Nat)
    (ctx : Context) (o : TermOutcome) :
    (o.newPolicyControllerErr ≠ none ∧
      leaderCallback signalCtx genWorkers term ctx o =
        ([Action.newInformerFactory (.kubeInformer (.leaderTerm term)),
          Action.newInformerFactory (.kyvernoInformer (.leaderTerm term)),
          Action.exit 1], some 1)) ∨
    (o.newPolicyControllerErr = none ∧ o.cacheSynced = false ∧
      leaderCallback signalCtx genWorkers term ctx o =
        ([Action.newInformerFactory (.kubeInformer (.leaderTerm term)),
          Action.newInformerFactory (.kyvernoInformer (.leaderTerm term)),
          Action.startInformersAndWaitForCacheSync signalCtx
            [.kyvernoInformer (.leaderTerm term), .kubeInformer (.leaderTerm term)],
          Action.exit 1], some 1)) ∨
    (o.newPolicyControllerErr = none ∧ o.cacheSynced = true ∧
      leaderCallback signalCtx genWorkers term ctx o =
        ([Action.newInformerFactory (.kubeInformer (.leaderTerm term)),
          Action.newInformerFactory (.kyvernoInformer (.leaderTerm term)),
          Action.startInformersAndWaitForCacheSync signalCtx
            [.kyvernoInformer (.leaderTerm term), .kubeInformer (.leaderTerm term)]]
          ++ [Action.controllerRun signalCtx ⟨"policy-controller", 2⟩,
              Action.controllerRun signalCtx ⟨"background-controller", genWorkers⟩]
          ++ [Action.wgWait], none)) := by
  obtain ⟨e, s⟩ := o
  cases e with
  | some e => left; simp [leaderCallback, createrLeaderControllers]
  | none =>
    cases s with
    | false => right; left; simp [leaderCallback, createrLeaderControllers]
    | true => right; right; simp [leaderCallback, createrLeaderControllers]

/-- Every context used by the callback is the captured `signalCtx`. -/
theorem leaderCallback_context (signalCtx : Context) (genWorkers : Int) (term : Nat)
    (ctx : Context) (o : TermOutcome) (c : Context) :
    ∀ b ∈ (leaderCallback signalCtx genWorkers term ctx o).1,
      b.context = some c → c = signalCtx := by
  have hsymm : signalCtx = c → c = signalCtx := fun hh => hh.symm
  rcases leaderCallback_cases signalCtx genWorkers term ctx o with
    ⟨-, hq⟩ | ⟨-, -, hq⟩ | ⟨-, -, hq⟩
  · rw [hq]
    simp [Action.context]
  · rw [hq]
    simpa [Action.context] using hsymm
  · rw [hq]
    simpa [Action.context] using hsymm

/-- Every context used during the election is the captured `signalCtx`. -/
theorem runElection_context (signalCtx : Context) (genWorkers : Int) (n : Nat)
    (terms : List (Context × TermOutcome)) (a : Action) (c : Context)
    (ha : a ∈ (runElection (leaderCallback signalCtx genWorkers) n terms).1)
    (hc : a.context = some c) : c = signalCtx := by
  induction terms generalizing n with
  | nil => simp [runElection] at ha
  | cons t ts ih =>
    obtain ⟨ctx, o⟩ := t
    have hcb := leaderCallback_context signalCtx genWorkers n ctx o c
    unfold runElection at ha
    split at ha
    · next tr code heq =>
      have : tr = (leaderCallback signalCtx genWorkers n ctx o).1 := by rw [heq]
      exact hcb a (this ▸ ha) hc
    · next tr heq =>
      have : tr = (leaderCallback signalCtx genWorkers n ctx o).1 := by rw [heq]
      rcases List.mem_append.mp ha with h1 | h2
      · exact hcb a (this ▸ h1) hc
      · exact ih (n + 1) h2

/-- A term whose controllers cannot be built or whose caches do not sync ends
the election with exit status 1. -/
theorem runElection_fatal (signalCtx : Context) (genWorkers : Int) (n : Nat)
    (terms : List (Context × TermOutcome))
    (hbad : ∃ t ∈ terms, t.2.cacheSynced = false ∨ t.2.newPolicyControllerErr ≠ none) :
    (runElection (leaderCallback signalCtx genWorkers) n terms).2 = some 1 ∧
    (runElection (leaderCallback signalCtx genWorkers) n terms).1.getLast? = some (Action.exit 1) := by
  induction terms generalizing n with
  | nil => simp at hbad
  | cons t ts ih =>
    obtain ⟨ctx, o⟩ := t
    rcases leaderCallback_cases signalCtx genWorkers n ctx o with ⟨-, hq⟩ | ⟨-, -, hq⟩ | ⟨he, hs, hq⟩
    · simp [runElection, hq]
    · simp [runElection, hq]
    · have hrest : ∃ t ∈ ts, t.2.cacheSynced = false ∨ t.2.newPolicyControllerErr ≠ none := by
        obtain ⟨t, ht, hb⟩ := hbad
        rcases List.mem_cons.mp ht with rfl | ht
        · simp [he, hs] at hb
        · exact ⟨t, ht, hb⟩
      obtain ⟨i1, i2⟩ := ih (n + 1) hrest
      simp only [runElection, hq]
      refine ⟨i1, ?_⟩
      rw [List.getLast?_append, i2]
      rfl

/-- The four ways `main` can go. -/
theorem main_cases (w : ProcessOutcome) :
    (w.cacheSynced = false ∧
      main w = ([Action.newInformerFactory (.kyvernoInformer .process),
        Action.startInformersAndWaitForCacheSync .signal [.kyvernoInformer .process],
        Action.exit 1], some 1)) ∨
    (w.cacheSynced = true ∧ w.leaderElectionErr ≠ none ∧
      main w = ([Action.newInformerFactory (.kyvernoInformer .process),
        Action.startInformersAndWaitForCacheSync .signal [.kyvernoInformer .process],
        Action.eventGeneratorRun .signal 3, Action.leaderElectionNew,
        Action.exit 1], some 1)) ∨
    (w.cacheSynced = true ∧ w.leaderElectionErr = none ∧
      ∃ code, (runElection (leaderCallback .signal w.genWorkers) 0 w.terms).2 = some code ∧
      main w = ([Action.newInformerFactory (.kyvernoInformer .process),
        Action.startInformersAndWaitForCacheSync .signal [.kyvernoInformer .process],
        Action.eventGeneratorRun .signal 3, Action.leaderElectionNew,
        Action.leaderElectionRun .signal]
        ++ (runElection (leaderCallback .signal w.genWorkers) 0 w.terms).1, some code)) ∨
    (w.cacheSynced = true ∧ w.leaderElectionErr = none ∧
      (runElection (leaderCallback .signal w.genWorkers) 0 w.terms).2 = none ∧
      main w = ([Action.newInformerFactory (.kyvernoInformer .process),
        Action.startInformersAndWaitForCacheSync .signal [.kyvernoInformer .process],
        Action.eventGeneratorRun .signal 3, Action.leaderElectionNew,
        Action.leaderElectionRun .signal]
        ++ (runElection (leaderCallback .signal w.genWorkers) 0 w.terms).1
        ++ [Action.wgWait], none)) := by
  obtain ⟨g, sy, e, ts⟩ := w
  cases sy with
  | false => left; simp [main]
  | true =>
    cases e with
    | some e => right; left; simp [main]
    | none =>
      cases hq : (runElection (leaderCallback .signal g) 0 ts).2 with
      | some code => right; right; left; simp [main, hq]
      | none => right; right; right; simp [main, hq]

/-- C9 as stated fails. In a term whose context is derived from the
process-wide one, the cache-sync wait and `Run` of both leader-only
controllers are given the process-wide signal context, which is neither the
callback's context nor derived from it. -/
theorem leader_context_counterexample :
    Action.startInformersAndWaitForCacheSync Context.signal
        [.kyvernoInformer (.leaderTerm 0), .kubeInformer (.leaderTerm 0)]
      ∈ (leaderCallback Context.signal 10 0 (termContext 0) healthyTerm).1 ∧
    Action.controllerRun Context.signal ⟨"policy-controller", 2⟩
      ∈ (leaderCallback Context.signal 10 0 (termContext 0) healthyTerm).1 ∧
    Action.controllerRun Context.signal ⟨"background-controller", 10⟩
      ∈ (leaderCallback Context.signal 10 0 (termContext 0) healthyTerm).1 ∧
    Context.signal.derivedFrom (termContext 0) = false ∧
    ¬ (∀ a ∈ (leaderCallback Context.signal 10 0 (termContext 0) healthyTerm).1,
        ∀ c, a.context = some c →
          c.derivedFrom (termContext 0) = true ∧ c ≠ Context.signal) := by
  refine ⟨by decide, by decide, by decide, by decide, ?_⟩
  intro hall
  exact (hall (Action.controllerRun Context.signal ⟨"policy-controller", 2⟩) (by decide)
    Context.signal rfl).2 rfl

/-- C9, amended. In the leadership-acquisition callback the leader-stage
cache-sync wait and `Run` of every leader-only controller are given the
context `signalCtx` that `main` captured, whatever context the callback itself
receives: the callback's own context argument does not influence any call.
In `main` that captured context is the process-wide signal context, the same
one the event generator and the leader election run under, so every call of
the process that takes a context takes that one. -/
theorem leader_controllers_use_signal_context (signalCtx : Context) (genWorkers : Int)
    (term : Nat) (ctx : Context) (o : TermOutcome) (w : ProcessOutcome) :
    (∀ a ∈ (leaderCallback signalCtx genWorkers term ctx o).1,
        ∀ c, a.context = some c → c = signalCtx) ∧
    (∀ ctx', leaderCallback signalCtx genWorkers term ctx' o
        = leaderCallback signalCtx genWorkers term ctx o) ∧
    (∀ a ∈ (main w).1, ∀ c, a.context = some c → c = Context.signal) := by
  refine ⟨fun a ha c hc => leaderCallback_context signalCtx genWorkers term ctx o c a ha hc,
    fun _ => rfl, ?_⟩
  intro a ha c hc
  have hsymm : Context.signal = c → c = Context.signal := fun hh => hh.symm
  have hel := runElection_context Context.signal w.genWorkers 0 w.terms a c
  rcases main_cases w with ⟨-, hq⟩ | ⟨-, -, hq⟩ | ⟨-, -, code, -, hq⟩ | ⟨-, -, -, hq⟩
  · rw [hq] at ha
    simp only [List.mem_cons, List.mem_singleton, List.not_mem_nil, or_false] at ha
    rcases ha with rfl | rfl | rfl
    · simp [Action.context] at hc
    · exact hsymm (by simpa [Action.context] using hc)
    · simp [Action.context] at hc
  · rw [hq] at ha
    simp only [List.mem_cons, List.mem_singleton, List.not_mem_nil, or_false] at ha
    rcases ha with rfl | rfl | rfl | rfl | rfl
    · simp [Action.context] at hc
    · exact hsymm (by simpa [Action.context] using hc)
    · exact hsymm (by simpa [Action.context] using hc)
    · simp [Action.context] at hc
    · simp [Action.context] at hc
  · rw [hq] at ha
    simp only [List.mem_append, List.mem_cons, List.mem_singleton, List.not_mem_nil,
      or_false] at ha
    rcases ha with (rfl | rfl | rfl | rfl | rfl) | ha
    · simp [Action.context] at hc
    · exact hsymm (by simpa [Action.context] using hc)
    · exact hsymm (by simpa [Action.context] using hc)
    · simp [Action.context] at hc
    · exact hsymm (by simpa [Action.context] using hc)
    · exact hel ha hc
  · rw [hq] at ha
    simp only [List.mem_append, List.mem_cons, List.mem_singleton, List.not_mem_nil,
      or_false] at ha
    rcases ha with ((rfl | rfl | rfl | rfl | rfl) | ha) | rfl
    · simp [Action.context] at hc
    · exact hsymm (by simpa [Action.context] using hc)
    · exact hsymm (by simpa [Action.context] using hc)
    · simp [Action.context] at hc
    · exact hsymm (by simpa [Action.context] using hc)
    · exact hel ha hc
    · simp [Action.context] at hc

/-- C9, witness: in the second term of a process, `Run` of the background
controller is among the calls of the callback and is given the process-wide
context, and the calls are the same whichever context the callback receives. -/
theorem leader_controllers_use_signal_context_witness :
    Action.controllerRun Context.signal ⟨"background-controller", 10⟩
      ∈ (leaderCallback Context.signal 10 1 (termContext 1) healthyTerm).1 ∧
    (Action.controllerRun Context.signal ⟨"background-controller", 10⟩).context
      = some Context.signal ∧
    Context.signal = Context.signal ∧
    leaderCallback Context.signal 10 1 Context.signal healthyTerm
      = leaderCallback Context.signal 10 1 (termContext 1) healthyTerm :=
  ⟨by decide, rfl,
    (leader_controllers_use_signal_context Context.signal 10 1 (termContext 1) healthyTerm
      ⟨10, true, none, [(termContext 0, healthyTerm), (termContext 1, healthyTerm)]⟩).1
        (Action.controllerRun Context.signal ⟨"background-controller", 10⟩) (by decide)
        Context.signal rfl,
    (leader_controllers_use_signal_context Context.signal 10 1 (termContext 1) healthyTerm
      ⟨10, true, none, [(termContext 0, healthyTerm), (termContext 1, healthyTerm)]⟩).2.1
        Context.signal⟩

/-- C10 (cache-sync failure is fatal and precedes any start). (1) If the
cache-readiness wait of `main` returns false, the process exits with status 1
right after it: the event generator's `Run`, the leader election and every
controller are never started. (2) In the leader-election callback, if the
wait returns false or the controllers cannot be constructed, the process exits
with status 1, as the last call of the callback, and `Run` is invoked on no
leader-only controller. (3) Conversely, when `Run` is invoked on a leader-only
controller, construction succeeded, the wait returned true, and the calls of
the callback are the creation of the two fresh factories, then the wait over
both of them, then only `Run` calls, then `wg.Wait`. (4) A process that
reaches a term in which construction or the wait fails exits with status 1. -/
theorem cache_sync_failure_is_fatal (w : ProcessOutcome) (signalCtx : Context)
    (genWorkers : Int) (term : Nat) (ctx : Context) (o : TermOutcome) :
    (w.cacheSynced = false →
      main w = ([Action.newInformerFactory (.kyvernoInformer .process),
        Action.startInformersAndWaitForCacheSync .signal [.kyvernoInformer .process],
        Action.exit 1], some 1) ∧
      ∀ a ∈ (main w).1, a.isAlwaysOnStart = false ∧ a.isControllerRun = false) ∧
    ((o.cacheSynced = false ∨ o.newPolicyControllerErr ≠ none) →
      (leaderCallback signalCtx genWorkers term ctx o).2 = some 1 ∧
      (leaderCallback signalCtx genWorkers term ctx o).1.getLast? = some (Action.exit 1) ∧
      ∀ a ∈ (leaderCallback signalCtx genWorkers term ctx o).1, a.isControllerRun = false) ∧
    ((∃ a ∈ (leaderCallback signalCtx genWorkers term ctx o).1, a.isControllerRun = true) →
      o.cacheSynced = true ∧ o.newPolicyControllerErr = none ∧
      ∃ runs, (leaderCallback signalCtx genWorkers term ctx o).1 =
          [Action.newInformerFactory (.kubeInformer (.leaderTerm term)),
            Action.newInformerFactory (.kyvernoInformer (.leaderTerm term)),
            Action.startInformersAndWaitForCacheSync signalCtx
              [.kyvernoInformer (.leaderTerm term), .kubeInformer (.leaderTerm term)]]
          ++ runs ++ [Action.wgWait] ∧
        ∀ a ∈ runs, a.isControllerRun = true) ∧
    (w.cacheSynced = true → w.leaderElectionErr = none →
      (∃ t ∈ w.terms, t.2.cacheSynced = false ∨ t.2.newPolicyControllerErr ≠ none) →
      (main w).2 = some 1 ∧ (main w).1.getLast? = some (Action.exit 1)) := by
  refine ⟨?_, ?_, ?_, ?_⟩
  · intro hs
    rcases main_cases w with ⟨-, hq⟩ | ⟨hs', -⟩ | ⟨hs', -⟩ | ⟨hs', -⟩
    · rw [hq]
      exact ⟨rfl, by simp [Action.isAlwaysOnStart, Action.isControllerRun]⟩
    · rw [hs] at hs'; exact absurd hs' (by decide)
    · rw [hs] at hs'; exact absurd hs' (by decide)
    · rw [hs] at hs'; exact absurd hs' (by decide)
  · intro hbad
    rcases leaderCallback_cases signalCtx genWorkers term ctx o with
      ⟨-, hq⟩ | ⟨-, -, hq⟩ | ⟨he, hs, -⟩
    · rw [hq]
      exact ⟨rfl, rfl, by simp [Action.isControllerRun]⟩
    · rw [hq]
      exact ⟨rfl, rfl, by simp [Action.isControllerRun]⟩
    · rcases hbad with hb | hb
      · rw [hs] at hb; exact absurd hb (by decide)
      · exact absurd he hb
  · rintro ⟨a, ha, hrun⟩
    rcases leaderCallback_cases signalCtx genWorkers term ctx o with
      ⟨-, hq⟩ | ⟨-, -, hq⟩ | ⟨he, hs, hq⟩
    · rw [hq] at ha
      simp only [List.mem_cons, List.mem_singleton, List.not_mem_nil, or_false] at ha
      rcases ha with rfl | rfl | rfl <;> simp [Action.isControllerRun] at hrun
    · rw [hq] at ha
      simp only [List.mem_cons, List.mem_singleton, List.not_mem_nil, or_false] at ha
      rcases ha with rfl | rfl | rfl | rfl <;> simp [Action.isControllerRun] at hrun
    · refine ⟨hs, he, [Action.controllerRun signalCtx ⟨"policy-controller", 2⟩,
          Action.controllerRun signalCtx ⟨"background-controller", genWorkers⟩], ?_, ?_⟩
      · rw [hq]
      · simp [Action.isControllerRun]
  · intro hs he hbad
    obtain ⟨r1, r2⟩ := runElection_fatal .signal w.genWorkers 0 w.terms hbad
    rcases main_cases w with ⟨hs', -⟩ | ⟨-, he', -⟩ | ⟨-, -, code, hc, hq⟩ | ⟨-, -, hn, -⟩
    · rw [hs] at hs'; exact absurd hs' (by decide)
    · exact absurd he he'
    · rw [r1] at hc
      rw [hq, ← hc]
      refine ⟨rfl, ?_⟩
      simp only
      rw [List.getLast?_append, r2]
      rfl
    · rw [r1] at hn; exact absurd hn (by simp)

/-- C10, witness: an unsynced process starts nothing; an unsynced or broken
term runs no controller; a healthy term runs its controllers after the wait;
a process whose second term does not sync exits with status 1. -/
theorem cache_sync_failure_is_fatal_witness :
    (main ⟨10, false, none, [(termContext 0, healthyTerm)]⟩).2 = some 1 ∧
    (leaderCallback .signal 10 0 (termContext 0) unsyncedTerm).2 = some 1 ∧
    (leaderCallback .signal 10 0 (termContext 0) brokenTerm).2 = some 1 ∧
    healthyTerm.cacheSynced = true ∧
    (main ⟨10, true, none, [(termContext 0, healthyTerm), (termContext 1, unsyncedTerm)]⟩).2
      = some 1 := by
  have h1 := cache_sync_failure_is_fatal ⟨10, false, none, [(termContext 0, healthyTerm)]⟩
    .signal 10 0 (termContext 0) unsyncedTerm
  have h2 := cache_sync_failure_is_fatal
    ⟨10, true, none, [(termContext 0, healthyTerm), (termContext 1, unsyncedTerm)]⟩
    .signal 10 0 (termContext 0) brokenTerm
  have h3 := cache_sync_failure_is_fatal ⟨10, false, none, []⟩
    .signal 10 0 (termContext 0) healthyTerm
  refine ⟨?_, (h1.2.1 (Or.inl rfl)).1, (h2.2.1 (Or.inr (by decide))).1, ?_, ?_⟩
  · rw [(h1.1 rfl).1]
  · exact (h3.2.2.1 ⟨Action.controllerRun .signal ⟨"policy-controller", 2⟩,
      by decide, rfl⟩).1
  · exact (h2.2.2.2 rfl rfl ⟨(termContext 1, unsyncedTerm), by decide, Or.inl rfl⟩).1

end Bootstrap

end Kyverno
